import Mathlib

/-!
Verification development for the in-memory versioned file system of
`version_control_system.cpp`.

The embedding is a direct value-semantics translation of the source:

* `TreeNode`/`File` mirror the C++ classes; raw pointers become `Nat`
  indices into `version_map` (the node at index `i` is the node the C++
  code reaches through the pointer stored at `version_map[i]`), and the
  `nullptr` parent becomes `Option.none`.
* `time_t` values become `Nat`.  The wall clock (`time(0)`) is modelled by
  a `Clock`: a fixed value stream `f : Nat → Nat` together with a call
  counter `k`; every `time(0)` call in the source becomes one `Clock.now`
  step.  A real clock is nondecreasing and positive, which theorems assume
  explicitly where they need it.
* Fallible operations (C++ `throw`) return `Except Err _`; the source
  always throws before mutating anything, so the error branches carry no
  state.
-/

/-- Wall clock model: `f` is the value stream of successive `time(0)` calls,
`k` counts the calls made so far. -/
structure Clock where
  f : Nat → Nat
  k : Nat

/-- One `time(0)` call: returns the sampled value and advances the counter. -/
def Clock.now (c : Clock) : Nat × Clock := (c.f c.k, { c with k := c.k + 1 })

/-- Version node, translated field by field from the C++ `TreeNode`.
`snapshot_ts = 0` means "not a snapshot" exactly as in the source;
`parent`/`children` store node ids instead of raw pointers. -/
structure TreeNode where
  version_id : Nat
  content : String
  message : String
  created_ts : Nat
  snapshot_ts : Nat
  parent : Option Nat
  children : List Nat
  deriving DecidableEq

/-- Junk node returned by an out-of-bounds `version_map` dereference;
never consulted on well-formed files (see `File.WF`). -/
def dfltNode : TreeNode :=
  { version_id := 0, content := "", message := "", created_ts := 0,
    snapshot_ts := 0, parent := none, children := [] }

/-- The C++ `File` class.  `active_version` stores the index of the node the
`active_version` pointer points at inside `version_map`. -/
structure File where
  active_version : Nat
  total_versions : Nat
  version_map : List TreeNode
  last_modification : Nat
  recent_index : Int
  version_index : Int
  deriving DecidableEq

/-- The node stored at index `i` of `version_map` (junk if out of bounds). -/
def nodeAt (f : File) (i : Nat) : TreeNode :=
  (f.version_map[i]?).getD dfltNode

/-- Dereference the `active_version` pointer. -/
def File.activeNode (f : File) : TreeNode := nodeAt f f.active_version

/-- `last_ts()` accessor. -/
def File.last_ts (f : File) : Nat := f.last_modification

/-- `total_ver()` accessor. -/
def File.total_ver (f : File) : Nat := f.total_versions

/-- `read()`: content of the active version. -/
def File.read (f : File) : String := f.activeNode.content

/-- Error values; constructors correspond to the C++ exception classes
carrying the thrown message.  `oob` marks an out-of-bounds `vector`
access (undefined behaviour in the source, made explicit here). -/
inductive Err where
  | invalidArgument (msg : String)
  | runtimeError (msg : String)
  | outOfRange (msg : String)
  | oob
  deriving DecidableEq

/-- `File::insert`: appends in place on an open active node, otherwise
creates a child version.  The two `Clock.now` steps are the source's
`last_modification = time(0)` and the `TreeNode` constructor's
`created_ts = time(0)` (second one only on the branching path). -/
def File.insert (c : Clock) (content : String) (f : File) : File × Clock :=
  let (t, c) := c.now
  let act := f.activeNode
  if act.snapshot_ts = 0 then
    ({ f with last_modification := t,
              version_map := f.version_map.set f.active_version
                { act with content := act.content ++ content } }, c)
  else
    let (t2, c) := c.now
    let nd : TreeNode :=
      { version_id := f.total_versions, content := act.content ++ content,
        message := "", created_ts := t2, snapshot_ts := 0,
        parent := some f.active_version, children := [] }
    ({ f with last_modification := t,
              total_versions := f.total_versions + 1,
              version_map := (f.version_map.set f.active_version
                  { act with children := act.children ++ [f.total_versions] }) ++ [nd],
              active_version := f.version_map.length }, c)

/-- `File::update`: same branching as `insert` but the content is replaced. -/
def File.update (c : Clock) (content : String) (f : File) : File × Clock :=
  let (t, c) := c.now
  let act := f.activeNode
  if act.snapshot_ts = 0 then
    ({ f with last_modification := t,
              version_map := f.version_map.set f.active_version
                { act with content := content } }, c)
  else
    let (t2, c) := c.now
    let nd : TreeNode :=
      { version_id := f.total_versions, content := content,
        message := "", created_ts := t2, snapshot_ts := 0,
        parent := some f.active_version, children := [] }
    ({ f with last_modification := t,
              total_versions := f.total_versions + 1,
              version_map := (f.version_map.set f.active_version
                  { act with children := act.children ++ [f.total_versions] }) ++ [nd],
              active_version := f.version_map.length }, c)

/-- `File::snapshot`: throws before any mutation if the active node is
already a snapshot; otherwise samples `time(0)` twice (for
`last_modification` and `snapshot_ts`) and freezes the active node. -/
def File.snapshot (c : Clock) (mess : String) (f : File) : Except Err (File × Clock) :=
  let act := f.activeNode
  if act.snapshot_ts ≠ 0 then
    .error (.runtimeError "Current version is already a snapshot")
  else
    let (t, c) := c.now
    let (t2, c) := c.now
    .ok ({ f with last_modification := t,
                  version_map := f.version_map.set f.active_version
                    { act with snapshot_ts := t2, message := mess } }, c)

/-- `File::rollback`.  The C++ `int id = -1` default is modelled by
`Option Nat`: callers only ever pass the default or a validated
non-negative id (`is_nonneg_integer` guards the handler), so the `id < 0`
half of the source's range check is vacuous here. -/
def File.rollback (arg : Option Nat) (f : File) : Except Err File :=
  match arg with
  | some id =>
    if f.total_versions ≤ id then
      .error (.outOfRange "Invalid version id for rollback")
    else
      .ok { f with active_version := id }
  | none =>
    match f.activeNode.parent with
    | none => .error (.runtimeError "No parent version to rollback to")
    | some p => .ok { f with active_version := p }

/-- The `File` constructor: default-initializes (`total_versions = 1`,
`last_modification = time(0)`, both heap indices `-1`), creates the root
node (whose constructor samples `created_ts = time(0)`) and immediately
snapshots it.  The snapshot cannot fail (the fresh root is open); the
error arm is dead code kept only for totality. -/
def File.new (c : Clock) : File × Clock :=
  let (t1, c) := c.now
  let (t2, c) := c.now
  let root : TreeNode :=
    { version_id := 0, content := "", message := "", created_ts := t2,
      snapshot_ts := 0, parent := none, children := [] }
  let f : File :=
    { active_version := 0, total_versions := 1, version_map := [root],
      last_modification := t1, recent_index := -1, version_index := -1 }
  match File.snapshot c "" f with
  | .ok r => r
  | .error _ => (f, c)

/-- Walk from a node to the root along parent links (the `while` loop of
`File::history`).  Fuel bounds the walk; on well-formed files parent ids
strictly decrease, so fuel `version_map.length` never runs out. -/
def chainGo (f : File) : Nat → Option Nat → List TreeNode
  | _, none => []
  | 0, some _ => []
  | fuel + 1, some i =>
    let nd := nodeAt f i
    nd :: chainGo f fuel nd.parent

/-- `File::history`: the snapshotted nodes on the root → active path, in
that order (the source prints them and returns their count). -/
def File.history (f : File) : List TreeNode :=
  ((chainGo f f.version_map.length (some f.active_version)).reverse).filter
    (fun nd => nd.snapshot_ts != 0)

/-- Per-node well-formedness at index `i`: the stored id is `i`, the root
(index 0) has no parent and every other node's parent has a smaller id. -/
def nodeOk (nd : TreeNode) (i : Nat) : Bool :=
  nd.version_id == i &&
    (match nd.parent with
     | none => i == 0
     | some p => decide (p < i))

/-- Well-formedness of a `File`, capturing the representation invariants the
C++ code maintains: `version_map` is dense (one slot per version), the
active pointer is valid, ids match positions and parents point backwards. -/
def File.WF (f : File) : Prop :=
  f.version_map.length = f.total_versions ∧
  f.active_version < f.version_map.length ∧
  ∀ i, i < f.version_map.length → nodeOk (nodeAt f i) i = true

/-! ### Basic facts about the file operations -/

/-- Fixed example clock (successive calls return 1, 2, 3, …). -/
def clk1 : Clock := ⟨fun n => n + 1, 0⟩

/-- Example file: freshly constructed with `clk1`. -/
def fW : File := (File.new clk1).1

lemma insert_open_eq (f : File) (c : Clock) (text : String)
    (h : f.activeNode.snapshot_ts = 0) :
    File.insert c text f =
      ({ f with last_modification := c.f c.k,
                version_map := f.version_map.set f.active_version
                  { f.activeNode with content := f.activeNode.content ++ text } },
       { c with k := c.k + 1 }) := by
  simp [File.insert, Clock.now, h]

lemma insert_frozen_eq (f : File) (c : Clock) (text : String)
    (h : f.activeNode.snapshot_ts ≠ 0) :
    File.insert c text f =
      ({ f with last_modification := c.f c.k,
                total_versions := f.total_versions + 1,
                version_map := (f.version_map.set f.active_version
                    { f.activeNode with children := f.activeNode.children ++ [f.total_versions] })
                  ++ [{ version_id := f.total_versions,
                        content := f.activeNode.content ++ text,
                        message := "", created_ts := c.f (c.k + 1), snapshot_ts := 0,
                        parent := some f.active_version, children := [] }],
                active_version := f.version_map.length },
       { c with k := c.k + 2 }) := by
  simp [File.insert, Clock.now, h]

lemma update_open_eq (f : File) (c : Clock) (text : String)
    (h : f.activeNode.snapshot_ts = 0) :
    File.update c text f =
      ({ f with last_modification := c.f c.k,
                version_map := f.version_map.set f.active_version
                  { f.activeNode with content := text } },
       { c with k := c.k + 1 }) := by
  simp [File.update, Clock.now, h]

lemma update_frozen_eq (f : File) (c : Clock) (text : String)
    (h : f.activeNode.snapshot_ts ≠ 0) :
    File.update c text f =
      ({ f with last_modification := c.f c.k,
                total_versions := f.total_versions + 1,
                version_map := (f.version_map.set f.active_version
                    { f.activeNode with children := f.activeNode.children ++ [f.total_versions] })
                  ++ [{ version_id := f.total_versions, content := text,
                        message := "", created_ts := c.f (c.k + 1), snapshot_ts := 0,
                        parent := some f.active_version, children := [] }],
                active_version := f.version_map.length },
       { c with k := c.k + 2 }) := by
  simp [File.update, Clock.now, h]

lemma snapshot_open_eq (f : File) (c : Clock) (mess : String)
    (h : f.activeNode.snapshot_ts = 0) :
    File.snapshot c mess f =
      .ok ({ f with last_modification := c.f c.k,
                    version_map := f.version_map.set f.active_version
                      { f.activeNode with snapshot_ts := c.f (c.k + 1), message := mess } },
           { c with k := c.k + 2 }) := by
  simp [File.snapshot, Clock.now, h]

lemma snapshot_frozen_eq (f : File) (c : Clock) (mess : String)
    (h : f.activeNode.snapshot_ts ≠ 0) :
    File.snapshot c mess f = .error (.runtimeError "Current version is already a snapshot") := by
  simp [File.snapshot, h]

lemma nodeAt_set_self (f : File) (i : Nat) (nd : TreeNode) (h : i < f.version_map.length) :
    ((f.version_map.set i nd)[i]?).getD dfltNode = nd := by
  simp [List.getElem?_set_self h]

lemma nodeAt_set_ne (f : File) (i j : Nat) (nd : TreeNode) (h : i ≠ j) :
    (f.version_map.set i nd)[j]? = f.version_map[j]? := by
  simp [List.getElem?_set_ne h]

instance (f : File) : Decidable (File.WF f) :=
  inferInstanceAs (Decidable (f.version_map.length = f.total_versions ∧
    f.active_version < f.version_map.length ∧
    ∀ i, i < f.version_map.length → nodeOk (nodeAt f i) i = true))

lemma nodeOk_facts (nd : TreeNode) (i : Nat) (h : nodeOk nd i = true) :
    nd.version_id = i ∧ (nd.parent = none → i = 0) ∧ (∀ p, nd.parent = some p → p < i) := by
  unfold nodeOk at h
  rcases Bool.and_eq_true_iff.mp h with ⟨h1, h2⟩
  refine ⟨by simpa using h1, ?_, ?_⟩
  · intro hp; rw [hp] at h2; simpa using h2
  · intro p hp; rw [hp] at h2; simpa using h2

/-- C4: on a well-formed file, parameterless rollback fails with the
"no parent" error exactly when the active node is the root (id 0);
`rollback id` fails with the "invalid id" error exactly when `id` is
outside `[0, totalVersions)`; rollback never creates or removes nodes and
never changes the version count; and rollback to any existing id succeeds
(regardless of that node's snapshot state, on which nothing depends). -/
theorem rollback_error_spec (f : File) (hwf : File.WF f) :
    (File.rollback none f = .error (.runtimeError "No parent version to rollback to")
        ↔ f.active_version = 0) ∧
    (∀ id : Nat,
      File.rollback (some id) f = .error (.outOfRange "Invalid version id for rollback")
        ↔ f.total_versions ≤ id) ∧
    (∀ arg f', File.rollback arg f = .ok f' →
        f'.version_map = f.version_map ∧ f'.total_versions = f.total_versions) ∧
    (∀ id : Nat, id < f.total_versions →
        ∃ f', File.rollback (some id) f = .ok f' ∧ f'.active_version = id) := by
  obtain ⟨hlen, hact, hnode⟩ := hwf
  obtain ⟨hid, hroot, hpar⟩ := nodeOk_facts _ _ (hnode f.active_version hact)
  refine ⟨⟨?_, ?_⟩, ?_, ?_, ?_⟩
  · intro h
    cases hp : f.activeNode.parent with
    | none => exact hroot hp
    | some p => rw [File.rollback, hp] at h; cases h
  · intro h0
    cases hp : f.activeNode.parent with
    | none => rw [File.rollback, hp]
    | some p => exact absurd (hpar p hp) (by omega)
  · intro id
    by_cases hc : f.total_versions ≤ id <;> simp [File.rollback, hc]
  · intro arg f' h
    cases arg with
    | some id =>
      rw [File.rollback] at h
      by_cases hc : f.total_versions ≤ id
      · rw [if_pos hc] at h; cases h
      · rw [if_neg hc] at h
        cases h
        exact ⟨rfl, rfl⟩
    | none =>
      cases hp : f.activeNode.parent with
      | none => rw [File.rollback, hp] at h; cases h
      | some p => rw [File.rollback, hp] at h; cases h; exact ⟨rfl, rfl⟩
  · intro id hlt
    exact ⟨_, by rw [File.rollback, if_neg (by omega)], rfl⟩

/-- C4 witness: instantiated at the freshly constructed example file. -/
theorem rollback_error_spec_witness :
    ((File.rollback none fW = .error (.runtimeError "No parent version to rollback to")
        ↔ fW.active_version = 0) ∧
     (∀ id : Nat,
       File.rollback (some id) fW = .error (.outOfRange "Invalid version id for rollback")
         ↔ fW.total_versions ≤ id) ∧
     (∀ arg f', File.rollback arg fW = .ok f' →
         f'.version_map = fW.version_map ∧ f'.total_versions = fW.total_versions) ∧
     (∀ id : Nat, id < fW.total_versions →
         ∃ f', File.rollback (some id) fW = .ok f' ∧ f'.active_version = id)) :=
  rollback_error_spec fW (by decide)

/-- C5: `insert` on an open active node appends in place (no node created,
version count unchanged, active pointer unchanged), `update` replaces in
place likewise; on a frozen active node each creates exactly one child
node with the prescribed content/parent/id, appends its id to the parent's
children and makes it active, incrementing the version count by one.  Both
operations are total functions (they never fail). -/
theorem insert_update_spec (f : File) (c : Clock) (text : String) (hwf : File.WF f) :
    (f.activeNode.snapshot_ts = 0 →
      ((File.insert c text f).1.version_map
          = f.version_map.set f.active_version
              { f.activeNode with content := f.activeNode.content ++ text } ∧
       File.read (File.insert c text f).1 = f.activeNode.content ++ text ∧
       (File.insert c text f).1.total_versions = f.total_versions ∧
       (File.insert c text f).1.version_map.length = f.version_map.length ∧
       (File.insert c text f).1.active_version = f.active_version ∧
       (File.update c text f).1.version_map
          = f.version_map.set f.active_version { f.activeNode with content := text } ∧
       File.read (File.update c text f).1 = text ∧
       (File.update c text f).1.total_versions = f.total_versions ∧
       (File.update c text f).1.version_map.length = f.version_map.length ∧
       (File.update c text f).1.active_version = f.active_version)) ∧
    (f.activeNode.snapshot_ts ≠ 0 →
      ((File.insert c text f).1.total_versions = f.total_versions + 1 ∧
       (File.insert c text f).1.version_map.length = f.version_map.length + 1 ∧
       (File.insert c text f).1.activeNode.content = f.activeNode.content ++ text ∧
       (File.insert c text f).1.activeNode.parent = some f.active_version ∧
       (File.insert c text f).1.activeNode.version_id = f.total_versions ∧
       (File.insert c text f).1.activeNode.snapshot_ts = 0 ∧
       (nodeAt (File.insert c text f).1 f.active_version).children
          = f.activeNode.children ++ [f.total_versions] ∧
       (File.update c text f).1.total_versions = f.total_versions + 1 ∧
       (File.update c text f).1.version_map.length = f.version_map.length + 1 ∧
       (File.update c text f).1.activeNode.content = text ∧
       (File.update c text f).1.activeNode.parent = some f.active_version ∧
       (File.update c text f).1.activeNode.version_id = f.total_versions ∧
       (File.update c text f).1.activeNode.snapshot_ts = 0 ∧
       (nodeAt (File.update c text f).1 f.active_version).children
          = f.activeNode.children ++ [f.total_versions])) := by
  obtain ⟨hlen, hact, hnode⟩ := hwf
  constructor
  · intro h
    rw [insert_open_eq f c text h, update_open_eq f c text h]
    refine ⟨rfl, ?_, rfl, by simp, rfl, rfl, ?_, rfl, by simp, rfl⟩
    · simp [File.read, File.activeNode, nodeAt, List.getElem?_set_self hact]
    · simp [File.read, File.activeNode, nodeAt, List.getElem?_set_self hact]
  · intro h
    rw [insert_frozen_eq f c text h, update_frozen_eq f c text h]
    have hset : ∀ nd : TreeNode, (f.version_map.set f.active_version nd).length
        = f.version_map.length := by simp
    refine ⟨rfl, by simp, ?_, ?_, ?_, ?_, ?_, rfl, by simp, ?_, ?_, ?_, ?_, ?_⟩ <;>
      simp [File.activeNode, nodeAt, List.getElem?_append, hact,
        Nat.lt_irrefl, List.getElem?_set_self hact]

/-- C5 witness: instantiated at the example file (whose root is frozen). -/
theorem insert_update_spec_witness :
    ((fW.activeNode.snapshot_ts = 0 →
      ((File.insert clk1 "hi" fW).1.version_map
          = fW.version_map.set fW.active_version
              { fW.activeNode with content := fW.activeNode.content ++ "hi" } ∧
       File.read (File.insert clk1 "hi" fW).1 = fW.activeNode.content ++ "hi" ∧
       (File.insert clk1 "hi" fW).1.total_versions = fW.total_versions ∧
       (File.insert clk1 "hi" fW).1.version_map.length = fW.version_map.length ∧
       (File.insert clk1 "hi" fW).1.active_version = fW.active_version ∧
       (File.update clk1 "hi" fW).1.version_map
          = fW.version_map.set fW.active_version { fW.activeNode with content := "hi" } ∧
       File.read (File.update clk1 "hi" fW).1 = "hi" ∧
       (File.update clk1 "hi" fW).1.total_versions = fW.total_versions ∧
       (File.update clk1 "hi" fW).1.version_map.length = fW.version_map.length ∧
       (File.update clk1 "hi" fW).1.active_version = fW.active_version)) ∧
    (fW.activeNode.snapshot_ts ≠ 0 →
      ((File.insert clk1 "hi" fW).1.total_versions = fW.total_versions + 1 ∧
       (File.insert clk1 "hi" fW).1.version_map.length = fW.version_map.length + 1 ∧
       (File.insert clk1 "hi" fW).1.activeNode.content = fW.activeNode.content ++ "hi" ∧
       (File.insert clk1 "hi" fW).1.activeNode.parent = some fW.active_version ∧
       (File.insert clk1 "hi" fW).1.activeNode.version_id = fW.total_versions ∧
       (File.insert clk1 "hi" fW).1.activeNode.snapshot_ts = 0 ∧
       (nodeAt (File.insert clk1 "hi" fW).1 fW.active_version).children
          = fW.activeNode.children ++ [fW.total_versions] ∧
       (File.update clk1 "hi" fW).1.total_versions = fW.total_versions + 1 ∧
       (File.update clk1 "hi" fW).1.version_map.length = fW.version_map.length + 1 ∧
       (File.update clk1 "hi" fW).1.activeNode.content = "hi" ∧
       (File.update clk1 "hi" fW).1.activeNode.parent = some fW.active_version ∧
       (File.update clk1 "hi" fW).1.activeNode.version_id = fW.total_versions ∧
       (File.update clk1 "hi" fW).1.activeNode.snapshot_ts = 0 ∧
       (nodeAt (File.update clk1 "hi" fW).1 fW.active_version).children
          = fW.activeNode.children ++ [fW.total_versions]))) :=
  insert_update_spec fW clk1 "hi" (by decide)

/-- C6: immediately after construction (with a positive wall clock, as in
reality) the history of a file is exactly one entry — the frozen root
node with id 0, empty content and empty message — the active node is the
root, and `read` returns the empty string. -/
theorem create_initial_state_spec (c : Clock) (hpos : ∀ n, 0 < c.f n) :
    File.history (File.new c).1 = [(File.new c).1.activeNode] ∧
    (File.new c).1.activeNode.version_id = 0 ∧
    (File.new c).1.activeNode.content = "" ∧
    (File.new c).1.activeNode.message = "" ∧
    (File.new c).1.activeNode.snapshot_ts ≠ 0 ∧
    (File.new c).1.active_version = 0 ∧
    File.read (File.new c).1 = "" ∧
    (File.new c).1.version_map.length = 1 := by
  have hne : c.f (c.k + 1 + 1 + 1) ≠ 0 := (hpos _).ne'
  simp [File.new, File.snapshot, Clock.now, File.history, chainGo, File.activeNode,
    nodeAt, File.read, hne]

/-- C6 witness: instantiated at the example clock. -/
theorem create_initial_state_spec_witness :
    File.history (File.new clk1).1 = [(File.new clk1).1.activeNode] ∧
    (File.new clk1).1.activeNode.version_id = 0 ∧
    (File.new clk1).1.activeNode.content = "" ∧
    (File.new clk1).1.activeNode.message = "" ∧
    (File.new clk1).1.activeNode.snapshot_ts ≠ 0 ∧
    (File.new clk1).1.active_version = 0 ∧
    File.read (File.new clk1).1 = "" ∧
    (File.new clk1).1.version_map.length = 1 :=
  create_initial_state_spec clk1 (fun n => Nat.succ_pos n)

/-- C7: for any well-formed file and any valid version id `pid`, the
sequence `update x; snapshot; rollback pid; read` succeeds and returns
exactly the content stored in node `pid` (in the resulting file; when node
`pid` was already frozen before the sequence, that is bit-for-bit the
content it held before, since frozen nodes are never rewritten). -/
theorem roundtrip_read_spec (f : File) (c : Clock) (x : String) (pid : Nat)
    (hwf : File.WF f) (hpid : pid < f.total_versions) :
    ∃ f2 c2 f3,
      File.snapshot (File.update c x f).2 "" (File.update c x f).1 = .ok (f2, c2) ∧
      File.rollback (some pid) f2 = .ok f3 ∧
      File.read f3 = (nodeAt f3 pid).content ∧
      ((nodeAt f pid).snapshot_ts ≠ 0 → File.read f3 = (nodeAt f pid).content) := by
  obtain ⟨hlen, hact, hnode⟩ := hwf
  have roll_eq : ∀ g : File, pid < g.total_versions →
      File.rollback (some pid) g = .ok { g with active_version := pid } := by
    intro g hg
    rw [File.rollback, if_neg (by omega)]
  by_cases hts : f.activeNode.snapshot_ts = 0
  · have e1 := update_open_eq f c x hts
    have hopen1 : ((File.update c x f).1).activeNode.snapshot_ts = 0 := by
      rw [e1]; simp [File.activeNode, nodeAt, List.getElem?_set_self hact]; exact hts
    have e2 := snapshot_open_eq (File.update c x f).1 (File.update c x f).2 "" hopen1
    have ht1 : (File.update c x f).1.total_versions = f.total_versions := by rw [e1]
    refine ⟨_, _, _, e2, roll_eq _ ?_, ?_, ?_⟩
    · show pid < (File.update c x f).1.total_versions
      rw [ht1]; exact hpid
    · rfl
    · intro hfro
      have hne : pid ≠ f.active_version := by
        intro hcontra; rw [hcontra] at hfro; exact hfro hts
      show (nodeAt _ pid).content = (nodeAt f pid).content
      simp only [nodeAt, e1]
      simp [List.getElem?_set_ne (Ne.symm hne)]
  · have e1 := update_frozen_eq f c x hts
    have hopen1 : ((File.update c x f).1).activeNode.snapshot_ts = 0 := by
      rw [e1]; simp [File.activeNode, nodeAt]
    have e2 := snapshot_open_eq (File.update c x f).1 (File.update c x f).2 "" hopen1
    have ht1 : (File.update c x f).1.total_versions = f.total_versions + 1 := by rw [e1]
    refine ⟨_, _, _, e2, roll_eq _ ?_, ?_, ?_⟩
    · show pid < (File.update c x f).1.total_versions
      rw [ht1]; omega
    · rfl
    · intro hfro
      have hpl : pid < f.version_map.length := hlen ▸ hpid
      have hne : pid ≠ f.version_map.length := by omega
      show (nodeAt _ pid).content = (nodeAt f pid).content
      simp only [nodeAt, e1]
      rw [List.getElem?_set_ne (Ne.symm hne)]
      rw [List.getElem?_append_left (by simpa using hpl)]
      by_cases hpa : pid = f.active_version
      · subst hpa
        simp [List.getElem?_set_self hpl, File.activeNode, nodeAt]
      · rw [List.getElem?_set_ne (Ne.symm hpa)]

/-- C7 witness: instantiated at the example file with `pid = 0`. -/
theorem roundtrip_read_spec_witness :
    ∃ f2 c2 f3,
      File.snapshot (File.update clk1 "v2" fW).2 "" (File.update clk1 "v2" fW).1 = .ok (f2, c2) ∧
      File.rollback (some 0) f2 = .ok f3 ∧
      File.read f3 = (nodeAt f3 0).content ∧
      ((nodeAt fW 0).snapshot_ts ≠ 0 → File.read f3 = (nodeAt fW 0).content) :=
  roundtrip_read_spec fW clk1 "v2" 0 (by decide) (by decide)

/-- Example file with an open active node: one insert after construction
branches off the frozen root, leaving the new child open. -/
def fOpen : File := (File.insert (File.new clk1).2 "x" fW).1

/-- C8: on a well-formed file whose active node is open, `insert a` followed
by `insert b` yields the same content and the same version count as the
single `insert (a ++ b)`; in particular the version count stays that of
the original file. -/
theorem insert_insert_concat_spec (f : File) (c c2 c3 : Clock) (a b : String)
    (hwf : File.WF f) (hopen : f.activeNode.snapshot_ts = 0) :
    File.read (File.insert c2 b (File.insert c a f).1).1
        = File.read (File.insert c3 (a ++ b) f).1 ∧
    (File.insert c2 b (File.insert c a f).1).1.total_versions
        = (File.insert c3 (a ++ b) f).1.total_versions ∧
    (File.insert c2 b (File.insert c a f).1).1.total_versions = f.total_versions := by
  obtain ⟨hlen, hact, hnode⟩ := hwf
  have e1 := insert_open_eq f c a hopen
  have hopen1 : ((File.insert c a f).1).activeNode.snapshot_ts = 0 := by
    rw [e1]; simp [File.activeNode, nodeAt, List.getElem?_set_self hact]; exact hopen
  have e2 := insert_open_eq (File.insert c a f).1 c2 b hopen1
  have e3 := insert_open_eq f c3 (a ++ b) hopen
  refine ⟨?_, ?_, ?_⟩
  · rw [File.read, File.read, File.activeNode, File.activeNode, nodeAt, nodeAt, e2, e3, e1]
    simp [List.getElem?_set_self hact, List.getElem?_set_self, List.set_set,
      File.activeNode, nodeAt, String.append_assoc]
  · rw [e2, e3, e1]
  · rw [e2, e1]

/-- C8 witness: instantiated at an example file with an open active node. -/
theorem insert_insert_concat_spec_witness :
    File.read (File.insert clk1 "b" (File.insert clk1 "a" fOpen).1).1
        = File.read (File.insert clk1 ("a" ++ "b") fOpen).1 ∧
    (File.insert clk1 "b" (File.insert clk1 "a" fOpen).1).1.total_versions
        = (File.insert clk1 ("a" ++ "b") fOpen).1.total_versions ∧
    (File.insert clk1 "b" (File.insert clk1 "a" fOpen).1).1.total_versions
        = fOpen.total_versions :=
  insert_insert_concat_spec fOpen clk1 clk1 clk1 "a" "b" (by decide) (by decide)

/-! ### Registry and rank-index (heap) embedding

The C++ globals: `all_files` is a 256×256 bucket table keyed by the
first/last character of the file name with a linear scan inside the
bucket; since a name determines its bucket and names are globally unique,
lookup-by-name over the flattened association list below computes exactly
the same result, so the registry is embedded as that flat list.  The two
max-heaps (`version_heap`, `recent_files_heap`) are `List (Nat × String)`
(key, name) with `time_t`/`int` keys both as `Nat`.

The `change`/`changet` position-bookkeeping helpers and the heap
operations are literally identical for the two heaps except for which
index field of `File` they write; `Fam` abstracts exactly that field and
each source function is the instantiation at its family. -/

abbrev Heap := List (Nat × String)
abbrev Reg := List (String × File)

/-- Junk heap entry produced by an out-of-bounds read in the *maintenance*
path (`change`, `shiftup`, `shiftdown`); such reads are undefined
behaviour in the source and are proved unreachable from the registry
invariant.  The *extraction* path (`shiftdown_…1`, `getmax_…`) instead
models out-of-bounds access explicitly (see `hshiftdown1Go`). -/
def hdflt : Nat × String := (0, "")

/-- `size_t` subtraction `n - 1`: the source computes `a.size() - 1` in
unsigned 64-bit arithmetic, so `0 - 1` wraps to `2^64 - 1`. -/
def UMAX : Nat := 2 ^ 64 - 1

def usub1 (n : Nat) : Nat := if n = 0 then UMAX else n - 1

def parent (i : Nat) : Nat := (i - 1) / 2

def l_child (i : Nat) : Nat := 2 * i + 1

def r_child (i : Nat) : Nat := 2 * i + 2

/-- `swap(a[i], a[j])`. -/
def swapL (a : Heap) (i j : Nat) : Heap :=
  (a.set i ((a[j]?).getD hdflt)).set j ((a[i]?).getD hdflt)

/-- Name lookup (the bucket scan of `all_files`, flattened). -/
def findFile : Reg → String → Option File
  | [], _ => none
  | (m, g) :: rest, name => if m = name then some g else findFile rest name

/-- Write-through of a mutation made via the looked-up `File*`. -/
def setFile : Reg → String → File → Reg
  | [], _, _ => []
  | (m, g) :: rest, name, z =>
    if m = name then (m, z) :: setFile rest name z else (m, g) :: setFile rest name z

/-- A heap family: which `File` index field the bookkeeping maintains
(`version_index` for the version-count heap, `recent_index` for the
recency heap). -/
structure Fam where
  proj : File → Int
  upd : File → Int → File

def famV : Fam := ⟨fun z => z.version_index, fun z j => { z with version_index := j }⟩

def famT : Fam := ⟨fun z => z.recent_index, fun z j => { z with recent_index := j }⟩

/-- `change`/`changet`: record that the file named at heap slot `i` now
sits at heap position `j`.  The source dereferences the bucket-scan
result unconditionally (null dereference if the name is unregistered);
that case is unreachable under the registry invariant and leaves the
registry unchanged here. -/
def hchange (F : Fam) (reg : Reg) (a : Heap) (i j : Nat) : Reg :=
  match findFile reg ((a[i]?).getD hdflt).2 with
  | some z => setFile reg ((a[i]?).getD hdflt).2 (F.upd z (j : Int))
  | none => reg

/-- The `shiftup_…` while loop.  `i` strictly decreases (to `parent i`),
so fuel `i + 1` can never be exhausted; the fuel-0 arm is dead code. -/
def hshiftupGo (F : Fam) : Nat → Reg → Heap → Nat → Reg × Heap
  | 0, reg, a, _ => (reg, a)
  | fuel + 1, reg, a, i =>
    if i ≠ 0 ∧ ((a[parent i]?).getD hdflt).1 < ((a[i]?).getD hdflt).1 then
      let reg1 := hchange F reg a (parent i) i
      let reg2 := hchange F reg1 a i (parent i)
      hshiftupGo F fuel reg2 (swapL a i (parent i)) (parent i)
    else (reg, a)

def hshiftup (F : Fam) (reg : Reg) (a : Heap) (i : Nat) : Reg × Heap :=
  hshiftupGo F (i + 1) reg a i

/-- The `shiftdown_…` while loop plus its trailing single-child `if`.
Each iteration moves `i` to a child (`2i+1` or `2i+2`), and iteration
requires `2i+1 < a.size() - 1`; hence strictly increasing `i` stays below
`a.length` whenever the loop is entered on a nonempty heap, so fuel
`a.length + 1` can never be exhausted there (on the empty heap the guard
wraps but the comparison of two junk entries stops the loop at once). -/
def hshiftdownGo (F : Fam) : Nat → Reg → Heap → Nat → Reg × Heap
  | 0, reg, a, _ => (reg, a)
  | fuel + 1, reg, a, i =>
    if l_child i < usub1 a.length then
      if ((a[i]?).getD hdflt).1 < ((a[l_child i]?).getD hdflt).1 ∨
         ((a[i]?).getD hdflt).1 < ((a[r_child i]?).getD hdflt).1 then
        if ((a[l_child i]?).getD hdflt).1 < ((a[r_child i]?).getD hdflt).1 then
          let reg1 := hchange F reg a (r_child i) i
          let reg2 := hchange F reg1 a i (r_child i)
          hshiftdownGo F fuel reg2 (swapL a i (r_child i)) (r_child i)
        else
          let reg1 := hchange F reg a (l_child i) i
          let reg2 := hchange F reg1 a i (l_child i)
          hshiftdownGo F fuel reg2 (swapL a i (l_child i)) (l_child i)
      else (reg, a)
    else if l_child i = usub1 a.length ∧
        ((a[i]?).getD hdflt).1 < ((a[l_child i]?).getD hdflt).1 then
      let reg1 := hchange F reg a (l_child i) i
      let reg2 := hchange F reg1 a i (l_child i)
      (reg2, swapL a i (l_child i))
    else (reg, a)

def hshiftdown (F : Fam) (reg : Reg) (a : Heap) (i : Nat) : Reg × Heap :=
  hshiftdownGo F (a.length + 1) reg a i

/-- `insert_int`/`insert_time`: push the entry, record its position, sift
up. -/
def hinsert (F : Fam) (reg : Reg) (a : Heap) (value : Nat) (s : String) : Reg × Heap :=
  let a1 := a ++ [(value, s)]
  let reg1 := hchange F reg a1 (usub1 a1.length) (usub1 a1.length)
  hshiftup F reg1 a1 (usub1 a1.length)

/-- `remove_from_…_heap`: no-op when the file is absent (`pos == -1`),
otherwise swap the victim to the back, pop it, and repair the heap at the
hole (the stale index left on the victim is immediately overwritten by
the reinsertion every caller performs). -/
def hremove (F : Fam) (reg : Reg) (a : Heap) (filename : String) : Reg × Heap :=
  match findFile reg filename with
  | none => (reg, a)
  | some z =>
    if F.proj z = -1 then (reg, a)
    else
      let pos := (F.proj z).toNat
      let reg1 := hchange F reg a (usub1 a.length) pos
      let reg2 := hchange F reg1 a pos (usub1 a.length)
      let a1 := (swapL a pos (usub1 a.length)).dropLast
      if pos < a1.length then
        hshiftdown F (hshiftup F reg2 a1 pos).1 (hshiftup F reg2 a1 pos).2 pos
      else (reg2, a1)

/-- The extraction-path sift-down (`shiftdown_int1`/`shiftdown_time1`,
which do no bookkeeping).  Every element access is checked: `none` means
the source would read `a[i]` out of bounds (undefined behaviour).  As in
`hshiftdownGo`, the fuel `a.length + 1` of `hshiftdown1` cannot run out,
since recursion only happens after in-bounds reads at strictly increasing
indices. -/
def hshiftdown1Go : Nat → Heap → Nat → Option Heap
  | 0, a, _ => some a
  | fuel + 1, a, i =>
    if l_child i < usub1 a.length then
      match a[i]?, a[l_child i]?, a[r_child i]? with
      | some x, some xl, some xr =>
        if x.1 < xl.1 ∨ x.1 < xr.1 then
          if xl.1 < xr.1 then hshiftdown1Go fuel (swapL a i (r_child i)) (r_child i)
          else hshiftdown1Go fuel (swapL a i (l_child i)) (l_child i)
        else some a
      | _, _, _ => none
    else if l_child i = usub1 a.length then
      match a[i]?, a[l_child i]? with
      | some x, some xl =>
        if x.1 < xl.1 then some (swapL a i (l_child i)) else some a
      | _, _ => none
    else some a

def hshiftdown1 (a : Heap) (i : Nat) : Option Heap :=
  hshiftdown1Go (a.length + 1) a i

def shiftdown_int1 : Heap → Nat → Option Heap := hshiftdown1

def shiftdown_time1 : Heap → Nat → Option Heap := hshiftdown1

/-- `getmax_int`: reads `a[0]` (out of bounds on an empty heap), swaps the
root with the last element, pops, and sifts down the new root — note the
sift-down runs on the *already popped* vector. -/
def getmax_int (a : Heap) : Option ((Nat × String) × Heap) :=
  match a[0]? with
  | none => none
  | some top =>
    let a1 := (swapL a 0 (usub1 a.length)).dropLast
    match shiftdown_int1 a1 0 with
    | none => none
    | some a2 => some (top, a2)

/-- `getmax_time`: as `getmax_int` but returns `(name, time)`. -/
def getmax_time (a : Heap) : Option ((String × Nat) × Heap) :=
  match a[0]? with
  | none => none
  | some top =>
    let a1 := (swapL a 0 (usub1 a.length)).dropLast
    match shiftdown_time1 a1 0 with
    | none => none
    | some a2 => some ((top.2, top.1), a2)

def change (reg : Reg) (a : Heap) (i j : Nat) : Reg := hchange famV reg a i j

def changet (reg : Reg) (a : Heap) (i j : Nat) : Reg := hchange famT reg a i j

def shiftup_int : Reg → Heap → Nat → Reg × Heap := hshiftup famV

def shiftup_time : Reg → Heap → Nat → Reg × Heap := hshiftup famT

def shiftdown_int : Reg → Heap → Nat → Reg × Heap := hshiftdown famV

def shiftdown_time : Reg → Heap → Nat → Reg × Heap := hshiftdown famT

def insert_int : Reg → Heap → Nat → String → Reg × Heap := hinsert famV

def insert_time : Reg → Heap → Nat → String → Reg × Heap := hinsert famT

def remove_from_version_heap : Reg → Heap → String → Reg × Heap := hremove famV

def remove_from_recent_heap : Reg → Heap → String → Reg × Heap := hremove famT

/-! ### The command loop of `main` -/

/-- Re-read `last_ts()` through the registry pointer (the handlers read
`f->last_ts()` after the heap removal). -/
def last_ts_of (reg : Reg) (name : String) : Nat :=
  match findFile reg name with
  | some z => z.last_ts
  | none => 0

/-- Re-read `total_ver()` through the registry pointer. -/
def total_ver_of (reg : Reg) (name : String) : Nat :=
  match findFile reg name with
  | some z => z.total_ver
  | none => 0

/-- The extraction loop of `RECENT_FILES`:
`for (k = 0; k < num && !copy.empty(); ++k) getmax_time(copy)`, collecting
the printed `(name, time)` pairs; `none` propagates an out-of-bounds
access inside `getmax_time`. -/
def extract_time : Nat → Heap → Option (List (String × Nat))
  | 0, _ => some []
  | n + 1, a =>
    if a.isEmpty then some []
    else
      match getmax_time a with
      | none => none
      | some (pr, a2) =>
        match extract_time n a2 with
        | none => none
        | some l => some (pr :: l)

/-- The extraction loop of `BIGGEST_TREES` (collects `(count, name)`). -/
def extract_int : Nat → Heap → Option (List (Nat × String))
  | 0, _ => some []
  | n + 1, a =>
    if a.isEmpty then some []
    else
      match getmax_int a with
      | none => none
      | some (pr, a2) =>
        match extract_int n a2 with
        | none => none
        | some l => some (pr :: l)

/-- One parsed command line (the `separate`/`connector` string plumbing of
`main` is the excluded CLI layer; `k` arguments arrive as validated
non-negative integers, content/message as the joined tail). -/
inductive Cmd where
  | create (name : String)
  | readC (name : String)
  | insertC (name : String) (content : String)
  | updateC (name : String) (content : String)
  | snapshotC (name : String) (message : String)
  | rollbackC (name : String) (arg : Option Nat)
  | historyC (name : String)
  | recentFiles (karg : Option Nat)
  | biggestTrees (karg : Option Nat)

/-- What a successful command prints, as structured values. -/
inductive CmdOut where
  | createdOut
  | readVal (s : String)
  | insertedOut (cur : String)
  | updatedOut (cur : String)
  | snapOut
  | rollOut (cur : String)
  | historyOut (entries : List TreeNode) (count : Nat)
  | recentOut (l : List (String × Nat))
  | biggestOut (l : List (Nat × String))
  deriving DecidableEq

/-- The mutable state of `main`: the registry, both heaps, and the wall
clock.  (`version_heap_copy`/`recent_files_heap_copy` are cleared before
every use and never read otherwise, so they stay local to the top-k
handlers here.) -/
structure Sys where
  all_files : Reg
  version_heap : Heap
  recent_files_heap : Heap
  clock : Clock

/-- One iteration of the command loop, up to the `catch`: errors are the
thrown exceptions (each handler throws only before mutating any state, so
the error branches carry no state). -/
def stepCmd (s : Sys) : Cmd → Except Err (Sys × CmdOut)
  | .create name =>
    if name = "" then .error (.invalidArgument "File name cannot be empty")
    else if (findFile s.all_files name).isSome then
      .error (.invalidArgument "File already exists")
    else
      let fc := File.new s.clock
      let reg := s.all_files ++ [(name, fc.1)]
      let rr := remove_from_recent_heap reg s.recent_files_heap name
      let ri := insert_time rr.1 rr.2 (last_ts_of rr.1 name) name
      let rv := remove_from_version_heap ri.1 s.version_heap name
      let vi := insert_int rv.1 rv.2 (total_ver_of rv.1 name) name
      .ok ({ all_files := vi.1, version_heap := vi.2, recent_files_heap := ri.2,
             clock := fc.2 }, .createdOut)
  | .readC name =>
    match findFile s.all_files name with
    | none => .error (.runtimeError "File not found")
    | some z => .ok (s, .readVal z.read)
  | .insertC name content =>
    match findFile s.all_files name with
    | none => .error (.runtimeError "File not found")
    | some z =>
      let zc := File.insert s.clock content z
      let reg := setFile s.all_files name zc.1
      let rr := remove_from_recent_heap reg s.recent_files_heap name
      let tc := zc.2.now
      let ri := insert_time rr.1 rr.2 tc.1 name
      let rv := remove_from_version_heap ri.1 s.version_heap name
      let vi := insert_int rv.1 rv.2 (total_ver_of rv.1 name) name
      .ok ({ all_files := vi.1, version_heap := vi.2, recent_files_heap := ri.2,
             clock := tc.2 }, .insertedOut zc.1.read)
  | .updateC name content =>
    match findFile s.all_files name with
    | none => .error (.runtimeError "File not found")
    | some z =>
      let zc := File.update s.clock content z
      let reg := setFile s.all_files name zc.1
      let rr := remove_from_recent_heap reg s.recent_files_heap name
      let tc := zc.2.now
      let ri := insert_time rr.1 rr.2 tc.1 name
      let rv := remove_from_version_heap ri.1 s.version_heap name
      let vi := insert_int rv.1 rv.2 (total_ver_of rv.1 name) name
      .ok ({ all_files := vi.1, version_heap := vi.2, recent_files_heap := ri.2,
             clock := tc.2 }, .updatedOut zc.1.read)
  | .snapshotC name message =>
    match findFile s.all_files name with
    | none => .error (.runtimeError "File not found")
    | some z =>
      match File.snapshot s.clock message z with
      | .error e => .error e
      | .ok zc =>
        let reg := setFile s.all_files name zc.1
        let rr := remove_from_recent_heap reg s.recent_files_heap name
        let tc := zc.2.now
        let ri := insert_time rr.1 rr.2 tc.1 name
        .ok ({ all_files := ri.1, version_heap := s.version_heap,
               recent_files_heap := ri.2, clock := tc.2 }, .snapOut)
  | .rollbackC name arg =>
    match findFile s.all_files name with
    | none => .error (.runtimeError "File not found")
    | some z =>
      match File.rollback arg z with
      | .error e => .error e
      | .ok z2 =>
        let reg := setFile s.all_files name z2
        let rr := remove_from_recent_heap reg s.recent_files_heap name
        let tc := s.clock.now
        let ri := insert_time rr.1 rr.2 tc.1 name
        .ok ({ all_files := ri.1, version_heap := s.version_heap,
               recent_files_heap := ri.2, clock := tc.2 }, .rollOut z2.read)
  | .historyC name =>
    match findFile s.all_files name with
    | none => .error (.runtimeError "File not found")
    | some z => .ok (s, .historyOut z.history z.history.length)
  | .recentFiles karg =>
    let num := match karg with
               | none => s.recent_files_heap.length
               | some k => k
    if s.recent_files_heap.length < num then
      .error (.invalidArgument "RECENT_FILES: requested number exceeds total files")
    else
      match extract_time num s.recent_files_heap with
      | none => .error .oob
      | some l => .ok (s, .recentOut l)
  | .biggestTrees karg =>
    let num := match karg with
               | none => s.version_heap.length
               | some k => k
    if s.version_heap.length < num then
      .error (.invalidArgument "BIGGEST_TREES: requested number exceeds total files")
    else
      match extract_int num s.version_heap with
      | none => .error .oob
      | some l => .ok (s, .biggestOut l)

/-- One full loop iteration including the `catch`: a failing command
leaves the state untouched and reports the error. -/
def runCmd (s : Sys) (cmd : Cmd) : Sys × Except Err CmdOut :=
  match stepCmd s cmd with
  | .ok so => (so.1, .ok so.2)
  | .error e => (s, .error e)

/-- The initial state of `main` (empty registry and heaps), with the
example clock. -/
def sys0 : Sys := ⟨[], [], [], clk1⟩

/-- State after `CREATE a`. -/
def sysA : Sys := (runCmd sys0 (.create "a")).1

/-- State after `CREATE a; INSERT a x`. -/
def sysB : Sys := (runCmd sysA (.insertC "a" "x")).1

/-- State after `CREATE a; INSERT a x; ROLLBACK a 0`. -/
def sysC : Sys := (runCmd sysB (.rollbackC "a" (some 0))).1

/-- The multiset of keys the heap holds for a given file name (the list of
`first` components of entries whose `second` is `name`, in heap order). -/
def keysFor : Heap → String → List Nat
  | [], _ => []
  | (k, m) :: rest, name =>
    if m = name then k :: keysFor rest name else keysFor rest name

/-- C10 (code bug): the extraction path is *not* in-bounds on the
extraction that empties the heap.  `getmax_int`/`getmax_time` on a
one-element heap pop the element and then sift down the now-empty copy,
where the loop guard `l_child(0) < a.size() - 1` wraps (`0 - 1` in
`size_t`) and the body reads `a[0]`/`a[1]` of an empty vector: the
out-of-bounds branch of the embedded indexing is reached. -/
theorem extraction_oob_reachable :
    getmax_int [(5, "a")] = none ∧
    getmax_time [(9, "a")] = none ∧
    shiftdown_int1 [] 0 = none :=
  ⟨rfl, rfl, rfl⟩

/-- C1 (code bug): with exactly one registered file, `RECENT_FILES 1`
(`k` equal to the number of files) runs the final max-extraction on the
emptied copy and performs the out-of-bounds access of
`extraction_oob_reachable` instead of returning the sorted listing; the
`k > size` validation and the copy semantics are intact. -/
theorem recent_files_k_eq_size_oob :
    sysA.recent_files_heap.length = 1 ∧
    stepCmd sysA (Cmd.recentFiles (some 1)) = .error .oob ∧
    stepCmd sysA (Cmd.recentFiles (some 2))
      = .error (.invalidArgument "RECENT_FILES: requested number exceeds total files") ∧
    stepCmd sysA (Cmd.biggestTrees (some 1)) = .error .oob :=
  ⟨rfl, rfl, rfl, rfl⟩

/-- C3: `SNAPSHOT` on a file whose active node is already frozen fails
with the "already a snapshot" error and the whole state — trees, both
heaps, clock — is exactly what it was before the command. -/
theorem snapshot_frozen_fails (s : Sys) (name msg : String) (z : File)
    (hz : findFile s.all_files name = some z)
    (hfro : z.activeNode.snapshot_ts ≠ 0) :
    runCmd s (.snapshotC name msg)
      = (s, .error (.runtimeError "Current version is already a snapshot")) := by
  simp only [runCmd, stepCmd, hz, snapshot_frozen_eq z s.clock msg hfro]

/-- C3 witness: right after `CREATE a` the active node is the frozen root,
so `SNAPSHOT a` fails and leaves the state unchanged. -/
theorem snapshot_frozen_fails_witness :
    runCmd sysA (.snapshotC "a" "m")
      = (sysA, .error (.runtimeError "Current version is already a snapshot")) :=
  snapshot_frozen_fails sysA "a" "m" ((findFile sysA.all_files "a").getD fW)
    (by rfl) (by decide)

/-- C2 counterexample: in the run `CREATE a; INSERT a x; ROLLBACK a 0`
(with a strictly increasing wall clock), the completed rollback leaves
`lastModified()` untouched (still 5, the insert's timestamp) but re-keys
the recency heap with the handler's fresh `time(0)` sample (8), so the
recency key does not equal `lastModified()`. -/
theorem rank_key_eq_lastmod_cex :
    (runCmd sysB (Cmd.rollbackC "a" (some 0))).2 = .ok (.rollOut "") ∧
    keysFor sysC.recent_files_heap "a" = [8] ∧
    (match findFile sysC.all_files "a" with
     | some z => z.last_ts
     | none => 0) = 5 ∧
    keysFor sysC.recent_files_heap "a"
      ≠ [(match findFile sysC.all_files "a" with
          | some z => z.last_ts
          | none => 0)] :=
  ⟨rfl, by decide, by decide, by decide⟩

/-! ### The external position-bookkeeping invariant (claims about the
registry/heap consistency) -/

/-- Heap entry names, in heap order. -/
def hnames (a : Heap) : List String := a.map (fun p => p.2)

/-- Registered file names, in registration order. -/
def rnames (reg : Reg) : List String := reg.map (fun p => p.1)

/-- Position consistency: the file named at heap slot `i` is registered
and its `F`-index field stores exactly `i`. -/
def PosOk (F : Fam) (reg : Reg) (a : Heap) : Prop :=
  ∀ i, i < a.length → (findFile reg ((a[i]?).getD hdflt).2).map F.proj = some (i : Int)

/-- Every heap entry names a registered file. -/
def MembOk (reg : Reg) (a : Heap) : Prop := ∀ p ∈ a, p.2 ∈ rnames reg

/-- A registered file absent from the heap carries the sentinel `-1`. -/
def AbsOk (F : Fam) (reg : Reg) (a : Heap) : Prop :=
  ∀ q ∈ reg, q.1 ∉ hnames a → F.proj q.2 = -1

/-- Full per-heap invariant. -/
def HeapOk (F : Fam) (reg : Reg) (a : Heap) : Prop :=
  (hnames a).Nodup ∧ MembOk reg a ∧ PosOk F reg a ∧ AbsOk F reg a

/-- Every registered file has an entry in the heap. -/
def FullOk (reg : Reg) (a : Heap) : Prop := ∀ q ∈ reg, q.1 ∈ hnames a

/-- The whole-system invariant of C9: unique names, and for both heaps,
one entry per registered file whose name is registered and whose
position matches the file's stored index field. -/
def SysInv (s : Sys) : Prop :=
  (rnames s.all_files).Nodup ∧
  HeapOk famT s.all_files s.recent_files_heap ∧
  HeapOk famV s.all_files s.version_heap ∧
  FullOk s.all_files s.recent_files_heap ∧
  FullOk s.all_files s.version_heap

instance (F : Fam) (reg : Reg) (a : Heap) : Decidable (PosOk F reg a) :=
  inferInstanceAs (Decidable (∀ i, i < a.length → _))

instance (reg : Reg) (a : Heap) : Decidable (MembOk reg a) :=
  inferInstanceAs (Decidable (∀ p ∈ a, _))

instance (F : Fam) (reg : Reg) (a : Heap) : Decidable (AbsOk F reg a) :=
  inferInstanceAs (Decidable (∀ q ∈ reg, _))

instance (F : Fam) (reg : Reg) (a : Heap) : Decidable (HeapOk F reg a) :=
  inferInstanceAs (Decidable (_ ∧ _ ∧ _ ∧ _))

instance (reg : Reg) (a : Heap) : Decidable (FullOk reg a) :=
  inferInstanceAs (Decidable (∀ q ∈ reg, _))

instance (s : Sys) : Decidable (SysInv s) :=
  inferInstanceAs (Decidable (_ ∧ _ ∧ _ ∧ _ ∧ _))

/-- The algebraic laws a heap family satisfies, stated for a family `F`
together with the opposite family `G` (all hold by `rfl` for both
instantiations): updating the index writes exactly that field. -/
def FamPair (F G : Fam) : Prop :=
  (∀ z j, F.proj (F.upd z j) = j) ∧
  (∀ z, F.upd z (F.proj z) = z) ∧
  (∀ z a b, F.upd (F.upd z a) b = F.upd z b) ∧
  (∀ z j, G.proj (F.upd z j) = G.proj z) ∧
  (∀ z j, (F.upd z j).total_versions = z.total_versions) ∧
  (∀ z j, (F.upd z j).last_modification = z.last_modification)

lemma famPair_VT : FamPair famV famT :=
  ⟨fun _ _ => rfl, fun _ => rfl, fun _ _ _ => rfl, fun _ _ => rfl,
   fun _ _ => rfl, fun _ _ => rfl⟩

lemma famPair_TV : FamPair famT famV :=
  ⟨fun _ _ => rfl, fun _ => rfl, fun _ _ _ => rfl, fun _ _ => rfl,
   fun _ _ => rfl, fun _ _ => rfl⟩

/-- `reg'` agrees with `reg` except possibly in the `F`-index field of
each file (same names, in the same order). -/
def EqExcept (F : Fam) (reg reg' : Reg) : Prop :=
  rnames reg' = rnames reg ∧
  ∀ n z, findFile reg n = some z →
    ∃ z', findFile reg' n = some z' ∧ z' = F.upd z (F.proj z')

lemma EqExcept_refl (F G : Fam) (hFG : FamPair F G) (reg : Reg) : EqExcept F reg reg :=
  ⟨rfl, fun _ z h => ⟨z, h, (hFG.2.1 z).symm⟩⟩

lemma EqExcept_trans (F G : Fam) (hFG : FamPair F G) (reg1 reg2 reg3 : Reg)
    (h12 : EqExcept F reg1 reg2) (h23 : EqExcept F reg2 reg3) : EqExcept F reg1 reg3 := by
  refine ⟨h23.1.trans h12.1, fun n z h => ?_⟩
  obtain ⟨z2, hz2, he2⟩ := h12.2 n z h
  obtain ⟨z3, hz3, he3⟩ := h23.2 n z2 hz2
  refine ⟨z3, hz3, ?_⟩
  have hmid : F.upd z2 (F.proj z3) = F.upd z (F.proj z3) := by
    rw [he2, hFG.2.2.1]
  exact he3.trans hmid

/-! #### findFile / setFile lemmas -/

lemma findFile_eq_none (reg : Reg) (n : String) :
    findFile reg n = none ↔ n ∉ rnames reg := by
  induction reg with
  | nil => simp [findFile, rnames]
  | cons q rest ih =>
    obtain ⟨m, g⟩ := q
    by_cases hm : m = n
    · subst hm; simp [findFile, rnames]
    · have hnm : ¬(n = m) := fun hx => hm hx.symm
      rw [findFile, if_neg hm, ih]
      simp [rnames, hnm]

lemma findFile_isSome_of_mem (reg : Reg) (n : String) (h : n ∈ rnames reg) :
    ∃ z, findFile reg n = some z := by
  cases hf : findFile reg n with
  | none => exact absurd ((findFile_eq_none reg n).mp hf) (by simp [h])
  | some z => exact ⟨z, rfl⟩

lemma findFile_mem (reg : Reg) (n : String) (z : File) (h : findFile reg n = some z) :
    (n, z) ∈ reg := by
  induction reg with
  | nil => cases h
  | cons q rest ih =>
    obtain ⟨m, g⟩ := q
    by_cases hm : m = n
    · subst hm
      rw [findFile, if_pos rfl] at h
      cases h; exact List.mem_cons_self _ _
    · rw [findFile, if_neg hm] at h
      exact List.mem_cons_of_mem _ (ih h)

lemma findFile_mem_names (reg : Reg) (n : String) (z : File)
    (h : findFile reg n = some z) : n ∈ rnames reg := by
  have := findFile_mem reg n z h
  simpa [rnames] using ⟨z, this⟩

lemma rnames_setFile (reg : Reg) (n : String) (w : File) :
    rnames (setFile reg n w) = rnames reg := by
  induction reg with
  | nil => rfl
  | cons q rest ih =>
    obtain ⟨m, g⟩ := q
    by_cases hm : m = n <;> simp [setFile, hm, rnames] at ih ⊢ <;> exact ih

lemma findFile_setFile_self (reg : Reg) (n : String) (w : File) :
    findFile (setFile reg n w) n = (findFile reg n).map (fun _ => w) := by
  induction reg with
  | nil => rfl
  | cons q rest ih =>
    obtain ⟨m, g⟩ := q
    by_cases hm : m = n
    · subst hm; simp [setFile, findFile]
    · simp [setFile, findFile, hm, ih]

lemma findFile_setFile_ne (reg : Reg) (n m : String) (w : File) (h : m ≠ n) :
    findFile (setFile reg n w) m = findFile reg m := by
  induction reg with
  | nil => rfl
  | cons q rest ih =>
    obtain ⟨m0, g⟩ := q
    by_cases hm : m0 = n
    · subst hm
      simp [setFile, findFile, Ne.symm h, ih]
    · by_cases hm2 : m0 = m
      · subst hm2
        simp [setFile, findFile, hm]
      · simp [setFile, findFile, hm, hm2, ih]

lemma setFile_setFile (reg : Reg) (n : String) (w1 w2 : File) :
    setFile (setFile reg n w1) n w2 = setFile reg n w2 := by
  induction reg with
  | nil => rfl
  | cons q rest ih =>
    obtain ⟨m, g⟩ := q
    by_cases hm : m = n <;> simp [setFile, hm, ih]

lemma findFile_append_left (reg l : Reg) (n : String) (z : File)
    (h : findFile reg n = some z) : findFile (reg ++ l) n = some z := by
  induction reg with
  | nil => cases h
  | cons q rest ih =>
    obtain ⟨m, g⟩ := q
    by_cases hm : m = n
    · subst hm; rw [findFile, if_pos rfl] at h; cases h; simp [findFile]
    · rw [findFile, if_neg hm] at h
      simpa [findFile, hm] using ih h

lemma findFile_append_right (reg l : Reg) (n : String)
    (h : findFile reg n = none) : findFile (reg ++ l) n = findFile l n := by
  induction reg with
  | nil => rfl
  | cons q rest ih =>
    obtain ⟨m, g⟩ := q
    by_cases hm : m = n
    · subst hm; rw [findFile, if_pos rfl] at h; cases h
    · rw [findFile, if_neg hm] at h
      simpa [findFile, hm] using ih h

/-! #### swapL lemmas -/

lemma swapL_length (a : Heap) (i j : Nat) : (swapL a i j).length = a.length := by
  simp [swapL]

lemma swapL_get_second (a : Heap) (i j : Nat) (hi : i < a.length) (hj : j < a.length) :
    (swapL a i j)[j]? = a[i]? := by
  have hj2 : j < (a.set i ((a[j]?).getD hdflt)).length := by simpa using hj
  rw [swapL, List.getElem?_set_self hj2, List.getElem?_eq_getElem hi]
  rfl

lemma swapL_get_first (a : Heap) (i j : Nat) (hi : i < a.length) (hj : j < a.length)
    (hne : i ≠ j) : (swapL a i j)[i]? = a[j]? := by
  rw [swapL, List.getElem?_set_ne (Ne.symm hne), List.getElem?_set_self hi,
    List.getElem?_eq_getElem hj]
  rfl

lemma swapL_get_other (a : Heap) (i j k : Nat) (hki : k ≠ i) (hkj : k ≠ j) :
    (swapL a i j)[k]? = a[k]? := by
  simp [swapL, List.getElem?_set_ne (Ne.symm hkj), List.getElem?_set_ne (Ne.symm hki)]

lemma set_getD_self (a : Heap) (i : Nat) (hi : i < a.length) :
    a.set i ((a[i]?).getD hdflt) = a := by
  apply List.ext_getElem?
  intro n
  by_cases hn : n = i
  · subst hn; rw [List.getElem?_set_self hi, List.getElem?_eq_getElem hi]; rfl
  · rw [List.getElem?_set_ne (Ne.symm hn)]

lemma cons_set_perm {α : Type} (t : List α) (m : Nat) (hm : m < t.length) (y : α) :
    (t[m] :: t.set m y).Perm (y :: t) := by
  induction t generalizing m with
  | nil => cases hm
  | cons hd tl ih =>
    cases m with
    | zero => simpa using List.Perm.swap y hd tl
    | succ m =>
      have hm2 : m < tl.length := by simpa using hm
      have step1 : (tl[m] :: hd :: tl.set m y).Perm (hd :: tl[m] :: tl.set m y) :=
        List.Perm.swap hd tl[m] _
      have step2 : (hd :: tl[m] :: tl.set m y).Perm (hd :: y :: tl) :=
        (ih m hm2).cons hd
      have step3 : (hd :: y :: tl).Perm (y :: hd :: tl) := List.Perm.swap y hd tl
      simpa using (step1.trans step2).trans step3

lemma perm_set_swap {α : Type} (l : List α) (i j : Nat) (hi : i < l.length)
    (hj : j < l.length) : ((l.set i l[j]).set j l[i]).Perm l := by
  induction l generalizing i j with
  | nil => cases hi
  | cons x t ih =>
    cases i with
    | zero =>
      cases j with
      | zero => simp
      | succ m =>
        have hm : m < t.length := by simpa using hj
        simpa using cons_set_perm t m hm x
    | succ n =>
      have hn : n < t.length := by simpa using hi
      cases j with
      | zero =>
        simpa using cons_set_perm t n hn x
      | succ m =>
        have hm : m < t.length := by simpa using hj
        simpa using (ih n m hn hm).cons x

lemma swapL_perm (a : Heap) (i j : Nat) (hi : i < a.length) (hj : j < a.length) :
    (swapL a i j).Perm a := by
  have hu : (a[i]?).getD hdflt = a[i] := by rw [List.getElem?_eq_getElem hi]; rfl
  have hv : (a[j]?).getD hdflt = a[j] := by rw [List.getElem?_eq_getElem hj]; rfl
  rw [swapL, hu, hv]
  exact perm_set_swap a i j hi hj

/-- Relational summary of one bookkeeping-preserving heap transformation:
the heap is permuted, only `F`-index fields of files named in the heap
change, and afterwards the names are still distinct with consistent
positions. -/
def StepOk (F : Fam) (reg : Reg) (a : Heap) (reg2 : Reg) (a2 : Heap) : Prop :=
  a2.Perm a ∧ EqExcept F reg reg2 ∧
  (∀ n, n ∉ hnames a → findFile reg2 n = findFile reg n) ∧
  (hnames a2).Nodup ∧ PosOk F reg2 a2

lemma StepOk_refl (F G : Fam) (hFG : FamPair F G) (reg : Reg) (a : Heap)
    (hnd : (hnames a).Nodup) (hpos : PosOk F reg a) : StepOk F reg a reg a :=
  ⟨List.Perm.refl a, EqExcept_refl F G hFG reg, fun _ _ => rfl, hnd, hpos⟩

lemma hnames_perm {a a2 : Heap} (h : a2.Perm a) : (hnames a2).Perm (hnames a) :=
  h.map _

lemma StepOk_trans (F G : Fam) (hFG : FamPair F G) {reg : Reg} {a : Heap}
    {reg2 : Reg} {a2 : Heap} {reg3 : Reg} {a3 : Heap}
    (h12 : StepOk F reg a reg2 a2) (h23 : StepOk F reg2 a2 reg3 a3) :
    StepOk F reg a reg3 a3 := by
  obtain ⟨hp12, he12, hu12, hn2, hpos2⟩ := h12
  obtain ⟨hp23, he23, hu23, hn3, hpos3⟩ := h23
  refine ⟨hp23.trans hp12, EqExcept_trans F G hFG _ _ _ he12 he23, ?_, hn3, hpos3⟩
  intro n hn
  have hn2' : n ∉ hnames a2 := fun hm => hn ((hnames_perm hp12).mem_iff.mp hm)
  rw [hu23 n hn2', hu12 n hn]

/-- The combined effect of the `change x y; change y x; swap(a[y], a[x])`
pattern shared by `shiftup`, `shiftdown` and the removal prologue. -/
lemma swapStep_spec (F G : Fam) (hFG : FamPair F G) (reg : Reg) (a : Heap) (u v : Nat)
    (hu : u < a.length) (hv : v < a.length) (huv : u ≠ v)
    (hnd : (hnames a).Nodup) (hpos : PosOk F reg a) :
    StepOk F reg a (hchange F (hchange F reg a u v) a v u) (swapL a v u) := by
  have hgu : (a[u]?).getD hdflt = a[u] := by rw [List.getElem?_eq_getElem hu]; rfl
  have hgv : (a[v]?).getD hdflt = a[v] := by rw [List.getElem?_eq_getElem hv]; rfl
  set nu := ((a[u]?).getD hdflt).2 with hnu_def
  set nv := ((a[v]?).getD hdflt).2 with hnv_def
  obtain ⟨zu, hzu, hpu⟩ := Option.map_eq_some'.mp (hpos u hu)
  obtain ⟨zv, hzv, hpv⟩ := Option.map_eq_some'.mp (hpos v hv)
  have hu' : u < (hnames a).length := by simpa [hnames] using hu
  have hv' : v < (hnames a).length := by simpa [hnames] using hv
  have hnu_get : (hnames a)[u] = nu := by
    simp [hnames, List.getElem_map, hnu_def, hgu]
  have hnv_get : (hnames a)[v] = nv := by
    simp [hnames, List.getElem_map, hnv_def, hgv]
  have hnames_ne : nu ≠ nv := by
    intro he
    exact huv (hnd.getElem_inj_iff.mp (by rw [hnu_get, hnv_get, he]))
  have hnu_mem : nu ∈ hnames a := hnu_get ▸ List.getElem_mem hu'
  have hnv_mem : nv ∈ hnames a := hnv_get ▸ List.getElem_mem hv'
  have hreg1 : hchange F reg a u v = setFile reg nu (F.upd zu (v : Int)) := by
    rw [hchange, ← hnu_def, hzu]
  have hfind1_nv : findFile (hchange F reg a u v) nv = some zv := by
    rw [hreg1, findFile_setFile_ne _ _ _ _ (Ne.symm hnames_ne), hzv]
  have hreg2 : hchange F (hchange F reg a u v) a v u
      = setFile (hchange F reg a u v) nv (F.upd zv (u : Int)) := by
    rw [hchange, ← hnv_def, hfind1_nv]
  have hfind_nu : findFile (hchange F (hchange F reg a u v) a v u) nu
      = some (F.upd zu (v : Int)) := by
    rw [hreg2, findFile_setFile_ne _ _ _ _ hnames_ne, hreg1,
      findFile_setFile_self, hzu]
    rfl
  have hfind_nv : findFile (hchange F (hchange F reg a u v) a v u) nv
      = some (F.upd zv (u : Int)) := by
    rw [hreg2, findFile_setFile_self, hfind1_nv]
    rfl
  have hfind_other : ∀ m, m ≠ nu → m ≠ nv →
      findFile (hchange F (hchange F reg a u v) a v u) m = findFile reg m := by
    intro m h1 h2
    rw [hreg2, findFile_setFile_ne _ _ _ _ h2, hreg1, findFile_setFile_ne _ _ _ _ h1]
  have hrn : rnames (hchange F (hchange F reg a u v) a v u) = rnames reg := by
    rw [hreg2, rnames_setFile, hreg1, rnames_setFile]
  have hperm : (swapL a v u).Perm a := swapL_perm a v u hv hu
  refine ⟨hperm, ⟨hrn, ?_⟩, ?_, (hnames_perm hperm).symm.nodup hnd, ?_⟩
  · intro n z h
    by_cases h1 : n = nu
    · subst h1
      have hz : z = zu := by
        rw [hzu] at h
        exact (Option.some.inj h).symm
      subst hz
      exact ⟨F.upd z (v : Int), hfind_nu, by rw [hFG.1]⟩
    · by_cases h2 : n = nv
      · subst h2
        have hz : z = zv := by
          rw [hzv] at h
          exact (Option.some.inj h).symm
        subst hz
        exact ⟨F.upd z (u : Int), hfind_nv, by rw [hFG.1]⟩
      · exact ⟨z, by rw [hfind_other n h1 h2, h], (hFG.2.1 z).symm⟩
  · intro n hn
    exact hfind_other n (fun he => hn (he ▸ hnu_mem)) (fun he => hn (he ▸ hnv_mem))
  · intro k hk
    rw [swapL_length] at hk
    by_cases hkv : k = v
    · rw [hkv, swapL_get_first a v u hv hu (Ne.symm huv), ← hnu_def, hfind_nu]
      simp [hFG.1]
    · by_cases hku : k = u
      · rw [hku, swapL_get_second a v u hv hu, ← hnv_def, hfind_nv]
        simp [hFG.1]
      · have hgk : (swapL a v u)[k]? = a[k]? := swapL_get_other a v u k hkv hku
        rw [hgk]
        have hk' : k < (hnames a).length := by simpa [hnames] using hk
        have hne1 : ((a[k]?).getD hdflt).2 ≠ nu := by
          intro he
          have : (hnames a)[k] = (hnames a)[u] := by
            rw [hnu_get]
            rw [← he]
            simp [hnames, List.getElem_map, List.getElem?_eq_getElem hk]
          exact hku (hnd.getElem_inj_iff.mp this)
        have hne2 : ((a[k]?).getD hdflt).2 ≠ nv := by
          intro he
          have : (hnames a)[k] = (hnames a)[v] := by
            rw [hnv_get]
            rw [← he]
            simp [hnames, List.getElem_map, List.getElem?_eq_getElem hk]
          exact hkv (hnd.getElem_inj_iff.mp this)
        rw [hfind_other _ hne1 hne2]
        exact hpos k hk

lemma usub1_eq (n : Nat) (h : 0 < n) : usub1 n = n - 1 := by
  rw [usub1, if_neg (by omega)]

lemma parent_lt (i : Nat) (h : i ≠ 0) : parent i < i := by
  simp only [parent]; omega

lemma hshiftupGo_stepOk (F G : Fam) (hFG : FamPair F G) :
    ∀ (fuel : Nat) (reg : Reg) (a : Heap) (i : Nat),
      (hnames a).Nodup → PosOk F reg a → i < a.length →
      StepOk F reg a (hshiftupGo F fuel reg a i).1 (hshiftupGo F fuel reg a i).2 := by
  intro fuel
  induction fuel with
  | zero => intro reg a i hnd hpos _; exact StepOk_refl F G hFG reg a hnd hpos
  | succ fuel ih =>
    intro reg a i hnd hpos hi
    simp only [hshiftupGo]
    by_cases hguard : i ≠ 0 ∧ ((a[parent i]?).getD hdflt).1 < ((a[i]?).getD hdflt).1
    · rw [if_pos hguard]
      have hpar_lt : parent i < i := parent_lt i hguard.1
      have hpar : parent i < a.length := lt_trans hpar_lt hi
      have hswap := swapStep_spec F G hFG reg a (parent i) i hpar hi
        (Nat.ne_of_lt hpar_lt) hnd hpos
      obtain ⟨hperm, hexc, hun, hnd2, hpos2⟩ := hswap
      have hrec := ih _ _ (parent i) hnd2 hpos2
        (by rw [swapL_length]; exact lt_trans hpar_lt hi)
      exact StepOk_trans F G hFG ⟨hperm, hexc, hun, hnd2, hpos2⟩ hrec
    · rw [if_neg hguard]
      exact StepOk_refl F G hFG reg a hnd hpos

lemma hshiftup_stepOk (F G : Fam) (hFG : FamPair F G) (reg : Reg) (a : Heap) (i : Nat)
    (hnd : (hnames a).Nodup) (hpos : PosOk F reg a) (hi : i < a.length) :
    StepOk F reg a (hshiftup F reg a i).1 (hshiftup F reg a i).2 :=
  hshiftupGo_stepOk F G hFG (i + 1) reg a i hnd hpos hi

lemma hshiftdownGo_stepOk (F G : Fam) (hFG : FamPair F G) :
    ∀ (fuel : Nat) (reg : Reg) (a : Heap) (i : Nat),
      (hnames a).Nodup → PosOk F reg a → i < a.length →
      StepOk F reg a (hshiftdownGo F fuel reg a i).1 (hshiftdownGo F fuel reg a i).2 := by
  intro fuel
  induction fuel with
  | zero => intro reg a i hnd hpos _; exact StepOk_refl F G hFG reg a hnd hpos
  | succ fuel ih =>
    intro reg a i hnd hpos hi
    have hlen1 : 0 < a.length := lt_of_le_of_lt (Nat.zero_le i) hi
    have husub : usub1 a.length = a.length - 1 := usub1_eq _ hlen1
    simp only [hshiftdownGo]
    by_cases hg1 : l_child i < usub1 a.length
    · rw [if_pos hg1]
      rw [husub] at hg1
      have hl_lt : l_child i < a.length := by simp only [l_child] at hg1 ⊢; omega
      have hr_lt : r_child i < a.length := by
        simp only [l_child] at hg1; simp only [r_child]; omega
      have hil : i ≠ l_child i := by simp only [l_child]; omega
      have hir : i ≠ r_child i := by simp only [r_child]; omega
      by_cases hg2 : ((a[i]?).getD hdflt).1 < ((a[l_child i]?).getD hdflt).1 ∨
          ((a[i]?).getD hdflt).1 < ((a[r_child i]?).getD hdflt).1
      · rw [if_pos hg2]
        by_cases hg3 : ((a[l_child i]?).getD hdflt).1 < ((a[r_child i]?).getD hdflt).1
        · rw [if_pos hg3]
          have hswap := swapStep_spec F G hFG reg a (r_child i) i hr_lt hi
            (Ne.symm hir) hnd hpos
          obtain ⟨hperm, hexc, hun, hnd2, hpos2⟩ := hswap
          have hrec := ih _ _ (r_child i) hnd2 hpos2 (by rw [swapL_length]; exact hr_lt)
          exact StepOk_trans F G hFG ⟨hperm, hexc, hun, hnd2, hpos2⟩ hrec
        · rw [if_neg hg3]
          have hswap := swapStep_spec F G hFG reg a (l_child i) i hl_lt hi
            (Ne.symm hil) hnd hpos
          obtain ⟨hperm, hexc, hun, hnd2, hpos2⟩ := hswap
          have hrec := ih _ _ (l_child i) hnd2 hpos2 (by rw [swapL_length]; exact hl_lt)
          exact StepOk_trans F G hFG ⟨hperm, hexc, hun, hnd2, hpos2⟩ hrec
      · rw [if_neg hg2]
        exact StepOk_refl F G hFG reg a hnd hpos
    · rw [if_neg hg1]
      by_cases hg4 : l_child i = usub1 a.length ∧
          ((a[i]?).getD hdflt).1 < ((a[l_child i]?).getD hdflt).1
      · rw [if_pos hg4]
        have hl_lt : l_child i < a.length := by rw [hg4.1, husub]; omega
        have hil : i ≠ l_child i := by simp only [l_child]; omega
        exact swapStep_spec F G hFG reg a (l_child i) i hl_lt hi (Ne.symm hil) hnd hpos
      · rw [if_neg hg4]
        exact StepOk_refl F G hFG reg a hnd hpos

lemma hshiftdown_stepOk (F G : Fam) (hFG : FamPair F G) (reg : Reg) (a : Heap) (i : Nat)
    (hnd : (hnames a).Nodup) (hpos : PosOk F reg a) (hi : i < a.length) :
    StepOk F reg a (hshiftdown F reg a i).1 (hshiftdown F reg a i).2 :=
  hshiftdownGo_stepOk F G hFG (a.length + 1) reg a i hnd hpos hi

lemma hinsert_spec (F G : Fam) (hFG : FamPair F G) (reg : Reg) (a : Heap)
    (value : Nat) (s : String) (z : File)
    (hnd : (hnames a).Nodup) (hpos : PosOk F reg a)
    (hnew : s ∉ hnames a) (hz : findFile reg s = some z) :
    (hinsert F reg a value s).2.Perm ((value, s) :: a) ∧
    EqExcept F reg (hinsert F reg a value s).1 ∧
    (∀ n, n ∉ hnames a → n ≠ s →
      findFile (hinsert F reg a value s).1 n = findFile reg n) ∧
    (hnames (hinsert F reg a value s).2).Nodup ∧
    PosOk F (hinsert F reg a value s).1 (hinsert F reg a value s).2 := by
  have hlen1 : (a ++ [(value, s)]).length = a.length + 1 := by simp
  have husub : usub1 (a ++ [(value, s)]).length = a.length := by
    rw [hlen1, usub1_eq _ (by omega)]
    omega
  have hget_last : (a ++ [(value, s)])[a.length]? = some (value, s) :=
    List.getElem?_concat_length a (value, s)
  have hget_lt : ∀ k, k < a.length → (a ++ [(value, s)])[k]? = a[k]? := by
    intro k hk
    exact List.getElem?_append_left hk
  have hnames1 : hnames (a ++ [(value, s)]) = hnames a ++ [s] := by simp [hnames]
  have hnd1 : (hnames (a ++ [(value, s)])).Nodup := by
    rw [hnames1, List.nodup_append]
    exact ⟨hnd, List.nodup_singleton s, by
      intro x hx hmem
      rw [List.mem_singleton] at hmem
      exact hnew (hmem ▸ hx)⟩
  have hreg1 : hchange F reg (a ++ [(value, s)]) (usub1 (a ++ [(value, s)]).length)
      (usub1 (a ++ [(value, s)]).length) = setFile reg s (F.upd z ((a.length : Nat) : Int)) := by
    rw [hchange, husub, hget_last]
    show (match findFile reg s with
      | some z => setFile reg s (F.upd z ((a.length : Nat) : Int))
      | none => reg) = _
    rw [hz]
  have hfind1_s : findFile (setFile reg s (F.upd z ((a.length : Nat) : Int))) s
      = some (F.upd z ((a.length : Nat) : Int)) := by
    rw [findFile_setFile_self, hz]; rfl
  have hfind1_ne : ∀ m, m ≠ s →
      findFile (setFile reg s (F.upd z ((a.length : Nat) : Int))) m = findFile reg m := by
    intro m hm
    exact findFile_setFile_ne _ _ _ _ hm
  have hpos1 : PosOk F (setFile reg s (F.upd z ((a.length : Nat) : Int)))
      (a ++ [(value, s)]) := by
    intro k hk
    rw [hlen1] at hk
    by_cases hke : k = a.length
    · subst hke
      rw [hget_last]
      show (findFile _ s).map F.proj = _
      rw [hfind1_s]
      simp [hFG.1]
    · have hklt : k < a.length := by omega
      rw [hget_lt k hklt]
      have hmem : ((a[k]?).getD hdflt).2 ∈ hnames a := by
        have hk2 : k < (hnames a).length := by simpa [hnames] using hklt
        have : (hnames a)[k] = ((a[k]?).getD hdflt).2 := by
          simp [hnames, List.getElem_map, List.getElem?_eq_getElem hklt]
        exact this ▸ List.getElem_mem hk2
      rw [hfind1_ne _ (fun he => hnew (he ▸ hmem))]
      exact hpos k hklt
  have hexc1 : EqExcept F reg (setFile reg s (F.upd z ((a.length : Nat) : Int))) := by
    refine ⟨rnames_setFile reg s _, fun n z0 h => ?_⟩
    by_cases hn : n = s
    · subst hn
      have hz0 : z0 = z := by
        rw [hz] at h
        exact (Option.some.inj h).symm
      subst hz0
      exact ⟨_, hfind1_s, by rw [hFG.1]⟩
    · exact ⟨z0, by rw [hfind1_ne n hn, h], (hFG.2.1 z0).symm⟩
  have hup := hshiftup_stepOk F G hFG (setFile reg s (F.upd z ((a.length : Nat) : Int)))
    (a ++ [(value, s)]) (usub1 (a ++ [(value, s)]).length) hnd1 hpos1
    (by rw [husub, hlen1]; omega)
  rw [husub] at hup
  obtain ⟨hperm, hexc, hun, hnd2, hpos2⟩ := hup
  have hres : hinsert F reg a value s
      = hshiftup F (setFile reg s (F.upd z ((a.length : Nat) : Int)))
          (a ++ [(value, s)]) a.length := by
    rw [hinsert, hreg1, husub]
  rw [hres]
  refine ⟨hperm.trans (List.perm_append_singleton _ _), ?_, ?_, hnd2, hpos2⟩
  · exact EqExcept_trans F G hFG _ _ _ hexc1 hexc
  · intro n hn hns
    have hn1 : n ∉ hnames (a ++ [(value, s)]) := by
      rw [hnames1]
      simp [hn, hns]
    rw [hun n hn1, hfind1_ne n hns]

lemma swapL_self (a : Heap) (i : Nat) (hi : i < a.length) : swapL a i i = a := by
  rw [swapL, List.set_set, set_getD_self a i hi]

/-- Degenerate form of `swapStep_spec` for `u = v` (removal of the last
heap entry swaps a slot with itself). -/
lemma swapSelf_spec (F G : Fam) (hFG : FamPair F G) (reg : Reg) (a : Heap) (p : Nat)
    (hp : p < a.length) (hnd : (hnames a).Nodup) (hpos : PosOk F reg a) :
    StepOk F reg a (hchange F (hchange F reg a p p) a p p) (swapL a p p) := by
  have hgp : (a[p]?).getD hdflt = a[p] := by rw [List.getElem?_eq_getElem hp]; rfl
  obtain ⟨z, hz, hpz⟩ := Option.map_eq_some'.mp (hpos p hp)
  have hp' : p < (hnames a).length := by simpa [hnames] using hp
  have hmem_name : ((a[p]?).getD hdflt).2 ∈ hnames a := by
    have : (hnames a)[p] = ((a[p]?).getD hdflt).2 := by
      simp [hnames, List.getElem_map, hgp]
    exact this ▸ List.getElem_mem hp'
  have hreg1 : hchange F reg a p p = setFile reg ((a[p]?).getD hdflt).2
      (F.upd z (p : Int)) := by
    rw [hchange, hz]
  have hfind1 : findFile (hchange F reg a p p) ((a[p]?).getD hdflt).2
      = some (F.upd z (p : Int)) := by
    rw [hreg1, findFile_setFile_self, hz]; rfl
  have hreg2 : hchange F (hchange F reg a p p) a p p
      = setFile reg ((a[p]?).getD hdflt).2 (F.upd z (p : Int)) := by
    rw [hchange, hfind1]
    show setFile (hchange F reg a p p) ((a[p]?).getD hdflt).2 (F.upd (F.upd z (p : Int)) (p : Int)) = _
    rw [hreg1, setFile_setFile, hFG.2.2.1]
  have hfind2 : findFile (hchange F (hchange F reg a p p) a p p) ((a[p]?).getD hdflt).2
      = some (F.upd z (p : Int)) := by
    rw [hreg2, findFile_setFile_self, hz]; rfl
  have hfind_ne : ∀ m, m ≠ ((a[p]?).getD hdflt).2 →
      findFile (hchange F (hchange F reg a p p) a p p) m = findFile reg m := by
    intro m hm
    rw [hreg2, findFile_setFile_ne _ _ _ _ hm]
  rw [swapL_self a p hp]
  refine ⟨List.Perm.refl a, ⟨by rw [hreg2, rnames_setFile], ?_⟩, ?_, hnd, ?_⟩
  · intro n z0 h
    by_cases hn : n = ((a[p]?).getD hdflt).2
    · subst hn
      have hz0 : z0 = z := by
        rw [hz] at h
        exact (Option.some.inj h).symm
      subst hz0
      exact ⟨_, hfind2, by rw [hFG.1]⟩
    · exact ⟨z0, by rw [hfind_ne n hn, h], (hFG.2.1 z0).symm⟩
  · intro n hn
    exact hfind_ne n (fun he => hn (he ▸ hmem_name))
  · intro k hk
    by_cases hkp : k = p
    · rw [hkp, hfind2]
      simp [hFG.1]
    · have hk' : k < (hnames a).length := by simpa [hnames] using hk
      have hne : ((a[k]?).getD hdflt).2 ≠ ((a[p]?).getD hdflt).2 := by
        intro he
        have h1 : (hnames a)[k] = ((a[k]?).getD hdflt).2 := by
          simp [hnames, List.getElem_map, List.getElem?_eq_getElem hk]
        have h2 : (hnames a)[p] = ((a[p]?).getD hdflt).2 := by
          simp [hnames, List.getElem_map, hgp]
        exact hkp (hnd.getElem_inj_iff.mp (by rw [h1, h2, he]))
      rw [hfind_ne _ hne]
      exact hpos k hk

lemma hname_at (a : Heap) (p : Nat) (hp : p < a.length)
    (hp2 : p < (hnames a).length) : (hnames a)[p] = ((a[p]?).getD hdflt).2 := by
  simp [hnames, List.getElem_map, List.getElem?_eq_getElem hp]

lemma hremove_spec (F G : Fam) (hFG : FamPair F G) (reg : Reg) (a : Heap) (name : String)
    (z : File) (hnd : (hnames a).Nodup) (hpos : PosOk F reg a)
    (habs : AbsOk F reg a) (hz : findFile reg name = some z) :
    (name ∉ hnames a → hremove F reg a name = (reg, a)) ∧
    (name ∈ hnames a → ∃ key,
      ((key, name) :: (hremove F reg a name).2).Perm a ∧
      name ∉ hnames (hremove F reg a name).2 ∧
      EqExcept F reg (hremove F reg a name).1 ∧
      (∀ n, n ∉ hnames a → findFile (hremove F reg a name).1 n = findFile reg n) ∧
      (hnames (hremove F reg a name).2).Nodup ∧
      PosOk F (hremove F reg a name).1 (hremove F reg a name).2) := by
  constructor
  · intro hnotin
    have hproj : F.proj z = -1 := habs (name, z) (findFile_mem reg name z hz) hnotin
    simp only [hremove, hz]
    rw [if_pos hproj]
  · intro hmem
    obtain ⟨p, hp?⟩ := List.mem_iff_getElem?.mp hmem
    have hp2 : p < (hnames a).length := by
      by_contra hcontra
      rw [List.getElem?_eq_none (Nat.le_of_not_lt hcontra)] at hp?
      cases hp?
    have hp_lt : p < a.length := by simpa [hnames] using hp2
    have hgp : ((a[p]?).getD hdflt).2 = name := by
      rw [← hname_at a p hp_lt hp2]
      rw [List.getElem?_eq_getElem hp2] at hp?
      exact Option.some.inj hp?
    have hproj : F.proj z = (p : Int) := by
      have h0 := hpos p hp_lt
      rw [hgp, hz] at h0
      exact Option.some.inj h0
    have hne_neg : ¬ F.proj z = -1 := by rw [hproj]; omega
    have htn : (F.proj z).toNat = p := by rw [hproj]; exact Int.toNat_ofNat p
    have hlen_pos : 0 < a.length := lt_of_le_of_lt (Nat.zero_le p) hp_lt
    have husub : usub1 a.length = a.length - 1 := usub1_eq _ hlen_pos
    have hL1_lt : a.length - 1 < a.length := by omega
    have hstep : StepOk F reg a
        (hchange F (hchange F reg a (a.length - 1) p) a p (a.length - 1))
        (swapL a p (a.length - 1)) := by
      by_cases hpe : p = a.length - 1
      · rw [← hpe]
        exact swapSelf_spec F G hFG reg a p hp_lt hnd hpos
      · exact swapStep_spec F G hFG reg a (a.length - 1) p hL1_lt hp_lt
          (fun he => hpe he.symm) hnd hpos
    obtain ⟨hperm2, hexc2, hun2, hnd2, hpos2⟩ := hstep
    have hlen2 : (swapL a p (a.length - 1)).length = a.length := swapL_length _ _ _
    have ha2_ne : swapL a p (a.length - 1) ≠ [] := by
      intro he
      rw [he] at hlen2
      simp at hlen2
      omega
    have he_at : a[p]? = some ((a[p]?).getD hdflt) := by
      rw [List.getElem?_eq_getElem hp_lt]; rfl
    have hget_last : (swapL a p (a.length - 1))[a.length - 1]?
        = some ((a[p]?).getD hdflt) := by
      rw [swapL_get_second a p (a.length - 1) hp_lt hL1_lt]
      exact he_at
    have hdecomp : (swapL a p (a.length - 1)).dropLast ++ [(a[p]?).getD hdflt]
        = swapL a p (a.length - 1) := by
      have h1 := List.dropLast_append_getLast ha2_ne
      have hidx : (swapL a p (a.length - 1)).length - 1 = a.length - 1 := by
        rw [hlen2]
      have h2 : (swapL a p (a.length - 1)).getLast ha2_ne = (a[p]?).getD hdflt := by
        rw [List.getLast_eq_getElem]
        have h3 : (swapL a p (a.length - 1))[(swapL a p (a.length - 1)).length - 1]?
            = some ((a[p]?).getD hdflt) := by
          rw [hidx]; exact hget_last
        rw [List.getElem?_eq_getElem (by omega)] at h3
        exact Option.some.inj h3
      rw [h2] at h1
      exact h1
    have hperm_key : (((a[p]?).getD hdflt) :: (swapL a p (a.length - 1)).dropLast).Perm a := by
      have h1 : (((a[p]?).getD hdflt) :: (swapL a p (a.length - 1)).dropLast).Perm
          ((swapL a p (a.length - 1)).dropLast ++ [(a[p]?).getD hdflt]) :=
        (List.perm_append_singleton _ _).symm
      rw [hdecomp] at h1
      exact h1.trans hperm2
    have hnd_cons : (name :: hnames ((swapL a p (a.length - 1)).dropLast)).Nodup := by
      have h1 : (hnames (((a[p]?).getD hdflt) :: (swapL a p (a.length - 1)).dropLast)).Perm
          (hnames a) := hnames_perm hperm_key
      have h2 := h1.symm.nodup hnd
      simpa [hnames, hgp] using h2
    have hname_notin : name ∉ hnames ((swapL a p (a.length - 1)).dropLast) :=
      (List.nodup_cons.mp hnd_cons).1
    have hnd_drop : (hnames ((swapL a p (a.length - 1)).dropLast)).Nodup :=
      (List.nodup_cons.mp hnd_cons).2
    have hlen_drop : ((swapL a p (a.length - 1)).dropLast).length = a.length - 1 := by
      rw [List.length_dropLast, hlen2]
    have hpos_drop : PosOk F (hchange F (hchange F reg a (a.length - 1) p) a p (a.length - 1))
        ((swapL a p (a.length - 1)).dropLast) := by
      intro k hk
      rw [hlen_drop] at hk
      rw [List.getElem?_dropLast, if_pos (by omega : k < (swapL a p (a.length - 1)).length - 1)]
      exact hpos2 k (by omega)
    have hres : hremove F reg a name
        = if p < ((swapL a p (a.length - 1)).dropLast).length then
            hshiftdown F
              (hshiftup F (hchange F (hchange F reg a (a.length - 1) p) a p (a.length - 1))
                ((swapL a p (a.length - 1)).dropLast) p).1
              (hshiftup F (hchange F (hchange F reg a (a.length - 1) p) a p (a.length - 1))
                ((swapL a p (a.length - 1)).dropLast) p).2 p
          else (hchange F (hchange F reg a (a.length - 1) p) a p (a.length - 1),
            (swapL a p (a.length - 1)).dropLast) := by
      simp only [hremove, hz]
      rw [if_neg hne_neg]
      simp only [htn, husub]
    by_cases hplt : p < ((swapL a p (a.length - 1)).dropLast).length
    · rw [hres, if_pos hplt]
      have hup := hshiftup_stepOk F G hFG
        (hchange F (hchange F reg a (a.length - 1) p) a p (a.length - 1))
        ((swapL a p (a.length - 1)).dropLast) p hnd_drop hpos_drop hplt
      obtain ⟨hup_perm, hup_exc, hup_un, hup_nd, hup_pos⟩ := hup
      have hdn := hshiftdown_stepOk F G hFG _ _ p hup_nd hup_pos
        (by rw [hup_perm.length_eq]; exact hplt)
      obtain ⟨hdn_perm, hdn_exc, hdn_un, hdn_nd, hdn_pos⟩ := hdn
      have hsub_mem : ∀ n, n ∈ hnames ((swapL a p (a.length - 1)).dropLast) →
          n ∈ hnames a := by
        intro n hn
        have h1 : n ∈ hnames (swapL a p (a.length - 1)) := by
          simp only [hnames] at hn ⊢
          exact (List.dropLast_sublist _).map _ |>.subset hn
        exact (hnames_perm hperm2).mem_iff.mp h1
      have hpair : ((((a[p]?).getD hdflt).1, name) : Nat × String)
          = (a[p]?).getD hdflt := by rw [← hgp]
      refine ⟨((a[p]?).getD hdflt).1, ?_, ?_, ?_, ?_, hdn_nd, hdn_pos⟩
      · rw [hpair]
        exact ((hdn_perm.trans hup_perm).cons ((a[p]?).getD hdflt)).trans hperm_key
      · intro hcon
        have h1 := ((hnames_perm (hdn_perm.trans hup_perm)).mem_iff).mp hcon
        exact hname_notin h1
      · exact EqExcept_trans F G hFG _ _ _ hexc2
          (EqExcept_trans F G hFG _ _ _ hup_exc hdn_exc)
      · intro n hn
        have hn_drop : n ∉ hnames ((swapL a p (a.length - 1)).dropLast) :=
          fun hc => hn (hsub_mem n hc)
        have hn_up : n ∉ hnames (hshiftup F
            (hchange F (hchange F reg a (a.length - 1) p) a p (a.length - 1))
            ((swapL a p (a.length - 1)).dropLast) p).2 :=
          fun hc => hn_drop ((hnames_perm hup_perm).mem_iff.mp hc)
        rw [hdn_un n hn_up, hup_un n hn_drop, hun2 n hn]
    · rw [hres, if_neg hplt]
      have hpair : ((((a[p]?).getD hdflt).1, name) : Nat × String)
          = (a[p]?).getD hdflt := by rw [← hgp]
      refine ⟨((a[p]?).getD hdflt).1, ?_, hname_notin, hexc2, hun2, hnd_drop, hpos_drop⟩
      rw [hpair]
      exact hperm_key

lemma findFile_of_mem_nodup (reg : Reg) (n : String) (f : File)
    (hnd : (rnames reg).Nodup) (hmem : (n, f) ∈ reg) : findFile reg n = some f := by
  induction reg with
  | nil => cases hmem
  | cons q rest ih =>
    obtain ⟨m, g⟩ := q
    rcases List.mem_cons.mp hmem with heq | htail
    · cases heq
      rw [findFile, if_pos rfl]
    · have hnd2 : (rnames rest).Nodup := (List.nodup_cons.mp hnd).2
      have hm_ne : m ≠ n := by
        intro he
        subst he
        exact (List.nodup_cons.mp hnd).1 (by
          simpa [rnames] using ⟨f, htail⟩)
      rw [findFile, if_neg hm_ne]
      exact ih hnd2 htail

lemma mem_setFile (reg : Reg) (name : String) (w : File) (q : String × File)
    (h : q ∈ setFile reg name w) : q ∈ reg ∨ (q.1 = name ∧ q.2 = w) := by
  induction reg with
  | nil => cases h
  | cons hd rest ih =>
    obtain ⟨m, g⟩ := hd
    by_cases hm : m = name
    · subst hm
      rw [setFile, if_pos rfl] at h
      rcases List.mem_cons.mp h with heq | htail
      · subst heq; exact Or.inr ⟨rfl, rfl⟩
      · rcases ih htail with h1 | h1
        · exact Or.inl (List.mem_cons_of_mem _ h1)
        · exact Or.inr h1
    · rw [setFile, if_neg hm] at h
      rcases List.mem_cons.mp h with heq | htail
      · subst heq; exact Or.inl (List.mem_cons_self _ _)
      · rcases ih htail with h1 | h1
        · exact Or.inl (List.mem_cons_of_mem _ h1)
        · exact Or.inr h1

lemma rnames_mem_entry (reg : Reg) (n : String) (h : n ∈ rnames reg) :
    ∃ f, (n, f) ∈ reg := by
  induction reg with
  | nil => simp [rnames] at h
  | cons q rest ih =>
    obtain ⟨m, g⟩ := q
    rcases (by simpa [rnames] using h : n = m ∨ n ∈ rnames rest) with he | ht
    · subst he; exact ⟨g, List.mem_cons_self _ _⟩
    · obtain ⟨f, hf⟩ := ih ht
      exact ⟨f, List.mem_cons_of_mem _ hf⟩

/-- A family-`F` bookkeeping pass leaves the other family's whole
invariant over an untouched heap intact. -/
lemma HeapOk_transport (F G : Fam) (hFG : FamPair F G) (reg reg' : Reg) (b : Heap)
    (hndr : (rnames reg).Nodup) (hexc : EqExcept F reg reg') (h : HeapOk G reg b) :
    HeapOk G reg' b := by
  obtain ⟨hnd, hmemb, hpos, habs⟩ := h
  refine ⟨hnd, ?_, ?_, ?_⟩
  · intro p hp
    rw [hexc.1]
    exact hmemb p hp
  · intro i hi
    obtain ⟨w, hw, hpw⟩ := Option.map_eq_some'.mp (hpos i hi)
    obtain ⟨w', hw', he'⟩ := hexc.2 _ w hw
    rw [hw']
    have : G.proj w' = G.proj w := by rw [he', hFG.2.2.2.1]
    simp [this, hpw]
  · intro q' hq' hnot
    have hndr' : (rnames reg').Nodup := by rw [hexc.1]; exact hndr
    have hfind' : findFile reg' q'.1 = some q'.2 := by
      obtain ⟨n, f⟩ := q'
      exact findFile_of_mem_nodup reg' n f hndr' hq'
    have hmemn : q'.1 ∈ rnames reg := by
      rw [← hexc.1]
      simp only [rnames]
      exact List.mem_map.mpr ⟨q', hq', rfl⟩
    obtain ⟨w, hw⟩ := findFile_isSome_of_mem reg q'.1 hmemn
    obtain ⟨w', hw', he'⟩ := hexc.2 _ w hw
    have hq2 : q'.2 = w' := by
      rw [hfind'] at hw'
      exact Option.some.inj hw'
    have : G.proj q'.2 = G.proj w := by rw [hq2, he', hFG.2.2.2.1]
    rw [this]
    exact habs (q'.1, w) (findFile_mem reg q'.1 w hw) hnot

lemma FullOk_transport (reg reg' : Reg) (b : Heap)
    (hn : rnames reg' = rnames reg) (h : FullOk reg b) : FullOk reg' b := by
  intro q' hq'
  have hmemn : q'.1 ∈ rnames reg := by
    rw [← hn]
    exact List.mem_map.mpr ⟨q', hq', rfl⟩
  obtain ⟨f, hf⟩ := rnames_mem_entry reg q'.1 hmemn
  have := h (q'.1, f) hf
  exact this

/-- Replacing a file's record while preserving the `F`-index field keeps
the family-`F` heap invariant. -/
lemma HeapOk_setFile (F : Fam) (reg : Reg) (a : Heap) (name : String) (z z' : File)
    (hz : findFile reg name = some z) (hproj : F.proj z' = F.proj z)
    (h : HeapOk F reg a) : HeapOk F (setFile reg name z') a := by
  obtain ⟨hnd, hmemb, hpos, habs⟩ := h
  refine ⟨hnd, ?_, ?_, ?_⟩
  · intro p hp
    rw [rnames_setFile]
    exact hmemb p hp
  · intro i hi
    by_cases hni : ((a[i]?).getD hdflt).2 = name
    · rw [hni, findFile_setFile_self, hz]
      have := hpos i hi
      rw [hni, hz] at this
      simpa [hproj] using this
    · rw [findFile_setFile_ne _ _ _ _ hni]
      exact hpos i hi
  · intro q hq hnot
    rcases mem_setFile reg name z' q hq with h1 | h1
    · exact habs q h1 hnot
    · obtain ⟨hq1, hq2⟩ := h1
      rw [hq2, hproj]
      exact habs (name, z) (findFile_mem reg name z hz) (hq1 ▸ hnot)

/-! #### keysFor lemmas -/

lemma keysFor_perm (a b : Heap) (name : String) (h : a.Perm b) :
    (keysFor a name).Perm (keysFor b name) := by
  induction h with
  | nil => exact List.Perm.refl _
  | cons x l ih =>
    obtain ⟨k, m⟩ := x
    by_cases hm : m = name <;> simp [keysFor, hm, ih, List.Perm.cons]
  | swap x y l =>
    obtain ⟨k1, m1⟩ := x
    obtain ⟨k2, m2⟩ := y
    by_cases h1 : m1 = name <;> by_cases h2 : m2 = name <;>
      simp [keysFor, h1, h2, List.Perm.swap, List.Perm.refl]
  | trans h1 h2 ih1 ih2 => exact ih1.trans ih2

lemma keysFor_not_mem (a : Heap) (name : String) (h : name ∉ hnames a) :
    keysFor a name = [] := by
  induction a with
  | nil => rfl
  | cons hd rest ih =>
    obtain ⟨k, m⟩ := hd
    have hm : m ≠ name := by
      intro he
      exact h (by simp [hnames, he])
    rw [keysFor, if_neg hm]
    exact ih (fun hc => h (by simp [hnames] at hc ⊢; exact Or.inr hc))

lemma keysFor_singleton (a b : Heap) (name : String) (v : Nat)
    (hp : a.Perm ((v, name) :: b)) (hnb : name ∉ hnames b) :
    keysFor a name = [v] := by
  have h1 := keysFor_perm a ((v, name) :: b) name hp
  rw [keysFor, if_pos rfl, keysFor_not_mem b name hnb] at h1
  exact List.perm_singleton.mp h1

/-- Combined effect of the `remove_from_…_heap` / `insert_…` pair every
mutating handler performs: the entry for `name` is re-keyed to `value`,
all invariant pieces are restored, and only `F`-index fields changed. -/
lemma hupsert_spec (F G : Fam) (hFG : FamPair F G) (reg : Reg) (a : Heap)
    (name : String) (value : Nat) (z : File)
    (hndr : (rnames reg).Nodup) (hOk : HeapOk F reg a)
    (hz : findFile reg name = some z) :
    EqExcept F reg
      (hinsert F (hremove F reg a name).1 (hremove F reg a name).2 value name).1 ∧
    HeapOk F (hinsert F (hremove F reg a name).1 (hremove F reg a name).2 value name).1
      (hinsert F (hremove F reg a name).1 (hremove F reg a name).2 value name).2 ∧
    (∀ m, m ∈ hnames (hinsert F (hremove F reg a name).1
        (hremove F reg a name).2 value name).2 ↔ (m ∈ hnames a ∨ m = name)) ∧
    keysFor (hinsert F (hremove F reg a name).1
        (hremove F reg a name).2 value name).2 name = [value] := by
  obtain ⟨hnd, hmemb, hpos, habs⟩ := hOk
  have hspec := hremove_spec F G hFG reg a name z hnd hpos habs hz
  by_cases hmem : name ∈ hnames a
  · obtain ⟨key, hr_perm, hr_notin, hr_exc, hr_un, hr_nd, hr_pos⟩ := hspec.2 hmem
    obtain ⟨z1, hz1, _⟩ := hr_exc.2 name z hz
    have hins := hinsert_spec F G hFG (hremove F reg a name).1 (hremove F reg a name).2
      value name z1 hr_nd hr_pos hr_notin hz1
    obtain ⟨hi_perm, hi_exc, hi_un, hi_nd, hi_pos⟩ := hins
    have hexc := EqExcept_trans F G hFG _ _ _ hr_exc hi_exc
    have hmem_char : ∀ m, m ∈ hnames (hinsert F (hremove F reg a name).1
        (hremove F reg a name).2 value name).2 ↔ (m ∈ hnames a ∨ m = name) := by
      intro m
      have h1 := (hnames_perm hi_perm).mem_iff (a := m)
      have h2 := (hnames_perm hr_perm).mem_iff (a := m)
      simp only [hnames, List.map_cons, List.mem_cons] at h1 h2 ⊢
      rw [h1, h2]
      have hmem2 : name ∈ List.map (fun p => (p : Nat × String).2) a := by
        simpa [hnames] using hmem
      exact ⟨fun h => Or.inl h, fun h => h.elim id (fun he => he ▸ hmem2)⟩
    refine ⟨hexc, ⟨hi_nd, ?_, hi_pos, ?_⟩, hmem_char, ?_⟩
    · intro p hp
      have hpm : p.2 ∈ hnames (hinsert F (hremove F reg a name).1
          (hremove F reg a name).2 value name).2 := by
        simp only [hnames]
        exact List.mem_map.mpr ⟨p, hp, rfl⟩
      rcases (hmem_char p.2).mp hpm with h1 | h1
      · rw [hexc.1]
        obtain ⟨q, hq, hq2⟩ := List.mem_map.mp h1
        exact hq2 ▸ hmemb q hq
      · rw [hexc.1, h1]
        exact findFile_mem_names reg name z hz
    · intro q hq hnot
      have hq1_ne : q.1 ≠ name := by
        intro he
        exact hnot ((hmem_char q.1).mpr (Or.inr he))
      have hq1_na : q.1 ∉ hnames a := by
        intro hc
        exact hnot ((hmem_char q.1).mpr (Or.inl hc))
      have hndr' : (rnames (hinsert F (hremove F reg a name).1
          (hremove F reg a name).2 value name).1).Nodup := by
        rw [hexc.1]; exact hndr
      have hfq : findFile (hinsert F (hremove F reg a name).1
          (hremove F reg a name).2 value name).1 q.1 = some q.2 := by
        obtain ⟨n, f⟩ := q
        exact findFile_of_mem_nodup _ n f hndr' hq
      have hr_notin2 : q.1 ∉ hnames (hremove F reg a name).2 := by
        intro hc
        exact hq1_na ((hnames_perm hr_perm).mem_iff.mp (by
          simp only [hnames, List.map_cons, List.mem_cons]
          exact Or.inr (by simpa [hnames] using hc)))
      rw [hi_un q.1 hr_notin2 hq1_ne, hr_un q.1 hq1_na] at hfq
      exact habs (q.1, q.2) (findFile_mem reg q.1 q.2 hfq) hq1_na
    · have hperm : (hinsert F (hremove F reg a name).1
          (hremove F reg a name).2 value name).2.Perm
          ((value, name) :: (hremove F reg a name).2) := hi_perm
      exact keysFor_singleton _ _ name value hperm hr_notin
  · have hr_eq : hremove F reg a name = (reg, a) := hspec.1 hmem
    rw [hr_eq]
    have hins := hinsert_spec F G hFG reg a value name z hnd hpos hmem hz
    obtain ⟨hi_perm, hi_exc, hi_un, hi_nd, hi_pos⟩ := hins
    have hmem_char : ∀ m, m ∈ hnames (hinsert F reg a value name).2
        ↔ (m ∈ hnames a ∨ m = name) := by
      intro m
      have h1 := (hnames_perm hi_perm).mem_iff (a := m)
      simp only [hnames, List.map_cons, List.mem_cons] at h1 ⊢
      rw [h1]
      exact ⟨fun h => h.symm.imp id id, fun h => h.symm.imp id id⟩
    refine ⟨hi_exc, ⟨hi_nd, ?_, hi_pos, ?_⟩, hmem_char, ?_⟩
    · intro p hp
      have hpm : p.2 ∈ hnames (hinsert F reg a value name).2 := by
        simp only [hnames]
        exact List.mem_map.mpr ⟨p, hp, rfl⟩
      rcases (hmem_char p.2).mp hpm with h1 | h1
      · rw [hi_exc.1]
        obtain ⟨q, hq, hq2⟩ := List.mem_map.mp h1
        exact hq2 ▸ hmemb q hq
      · rw [hi_exc.1, h1]
        exact findFile_mem_names reg name z hz
    · intro q hq hnot
      have hq1_ne : q.1 ≠ name := by
        intro he
        exact hnot ((hmem_char q.1).mpr (Or.inr he))
      have hq1_na : q.1 ∉ hnames a := by
        intro hc
        exact hnot ((hmem_char q.1).mpr (Or.inl hc))
      have hndr' : (rnames (hinsert F reg a value name).1).Nodup := by
        rw [hi_exc.1]; exact hndr
      have hfq : findFile (hinsert F reg a value name).1 q.1 = some q.2 := by
        obtain ⟨n, f⟩ := q
        exact findFile_of_mem_nodup _ n f hndr' hq
      rw [hi_un q.1 hq1_na hq1_ne] at hfq
      exact habs (q.1, q.2) (findFile_mem reg q.1 q.2 hfq) hq1_na
    · exact keysFor_singleton _ _ name value hi_perm hmem

lemma EqExcept_fields (F G : Fam) (hFG : FamPair F G) (reg reg' : Reg) (n : String)
    (w : File) (hexc : EqExcept F reg reg') (h : findFile reg n = some w) :
    ∃ w', findFile reg' n = some w' ∧ w'.total_versions = w.total_versions ∧
      w'.last_modification = w.last_modification := by
  obtain ⟨w', hw', he⟩ := hexc.2 n w h
  exact ⟨w', hw', by rw [he, hFG.2.2.2.2.1], by rw [he, hFG.2.2.2.2.2]⟩

lemma hremove_exc (F G : Fam) (hFG : FamPair F G) (reg : Reg) (a : Heap)
    (name : String) (z : File) (hOk : HeapOk F reg a) (hz : findFile reg name = some z) :
    EqExcept F reg (hremove F reg a name).1 := by
  obtain ⟨hnd, hmemb, hpos, habs⟩ := hOk
  have hspec := hremove_spec F G hFG reg a name z hnd hpos habs hz
  by_cases hmem : name ∈ hnames a
  · exact (hspec.2 hmem).choose_spec.2.2.1
  · rw [hspec.1 hmem]
    exact EqExcept_refl F G hFG reg

lemma FullOk_names (reg : Reg) (a : Heap) (h : FullOk reg a) (n : String)
    (hn : n ∈ rnames reg) : n ∈ hnames a := by
  obtain ⟨f, hf⟩ := rnames_mem_entry reg n hn
  exact h (n, f) hf

/-- Combined effect of the heap updates of `CREATE`/`INSERT`/`UPDATE`: the
recency heap is re-keyed to `t` and the version heap to `tv`, all
invariant pieces survive, and `name`'s tree fields are untouched. -/
lemma upsert_both_ok (reg : Reg) (rheap vheap : Heap) (name : String) (t tv : Nat)
    (z : File) (hndr : (rnames reg).Nodup)
    (hT : HeapOk famT reg rheap) (hV : HeapOk famV reg vheap)
    (hz : findFile reg name = some z) :
    rnames (hinsert famV
      (hremove famV (hinsert famT (hremove famT reg rheap name).1
        (hremove famT reg rheap name).2 t name).1 vheap name).1
      (hremove famV (hinsert famT (hremove famT reg rheap name).1
        (hremove famT reg rheap name).2 t name).1 vheap name).2 tv name).1 = rnames reg ∧
    HeapOk famT (hinsert famV
      (hremove famV (hinsert famT (hremove famT reg rheap name).1
        (hremove famT reg rheap name).2 t name).1 vheap name).1
      (hremove famV (hinsert famT (hremove famT reg rheap name).1
        (hremove famT reg rheap name).2 t name).1 vheap name).2 tv name).1
      (hinsert famT (hremove famT reg rheap name).1
        (hremove famT reg rheap name).2 t name).2 ∧
    HeapOk famV (hinsert famV
      (hremove famV (hinsert famT (hremove famT reg rheap name).1
        (hremove famT reg rheap name).2 t name).1 vheap name).1
      (hremove famV (hinsert famT (hremove famT reg rheap name).1
        (hremove famT reg rheap name).2 t name).1 vheap name).2 tv name).1
      (hinsert famV
        (hremove famV (hinsert famT (hremove famT reg rheap name).1
          (hremove famT reg rheap name).2 t name).1 vheap name).1
        (hremove famV (hinsert famT (hremove famT reg rheap name).1
          (hremove famT reg rheap name).2 t name).1 vheap name).2 tv name).2 ∧
    (∀ m, m ∈ hnames (hinsert famT (hremove famT reg rheap name).1
        (hremove famT reg rheap name).2 t name).2 ↔ (m ∈ hnames rheap ∨ m = name)) ∧
    (∀ m, m ∈ hnames (hinsert famV
        (hremove famV (hinsert famT (hremove famT reg rheap name).1
          (hremove famT reg rheap name).2 t name).1 vheap name).1
        (hremove famV (hinsert famT (hremove famT reg rheap name).1
          (hremove famT reg rheap name).2 t name).1 vheap name).2 tv name).2
      ↔ (m ∈ hnames vheap ∨ m = name)) ∧
    keysFor (hinsert famT (hremove famT reg rheap name).1
      (hremove famT reg rheap name).2 t name).2 name = [t] ∧
    keysFor (hinsert famV
      (hremove famV (hinsert famT (hremove famT reg rheap name).1
        (hremove famT reg rheap name).2 t name).1 vheap name).1
      (hremove famV (hinsert famT (hremove famT reg rheap name).1
        (hremove famT reg rheap name).2 t name).1 vheap name).2 tv name).2 name = [tv] ∧
    (∃ w, findFile (hinsert famV
      (hremove famV (hinsert famT (hremove famT reg rheap name).1
        (hremove famT reg rheap name).2 t name).1 vheap name).1
      (hremove famV (hinsert famT (hremove famT reg rheap name).1
        (hremove famT reg rheap name).2 t name).1 vheap name).2 tv name).1 name = some w ∧
      w.total_versions = z.total_versions ∧ w.last_modification = z.last_modification) ∧
    (∃ w1, findFile (hremove famV (hinsert famT (hremove famT reg rheap name).1
        (hremove famT reg rheap name).2 t name).1 vheap name).1 name = some w1 ∧
      w1.total_versions = z.total_versions ∧ w1.last_modification = z.last_modification) := by
  have hupT := hupsert_spec famT famV famPair_TV reg rheap name t z hndr hT hz
  obtain ⟨hexcT, hOkT1, hcharT, hkeyT⟩ := hupT
  have hn1 := hexcT.1
  have hndr1 : (rnames (hinsert famT (hremove famT reg rheap name).1
      (hremove famT reg rheap name).2 t name).1).Nodup := by rw [hn1]; exact hndr
  have hV1 := HeapOk_transport famT famV famPair_TV reg _ vheap hndr hexcT hV
  obtain ⟨z1, hz1, hzt1, hzl1⟩ := EqExcept_fields famT famV famPair_TV reg _ name z hexcT hz
  have hupV := hupsert_spec famV famT famPair_VT _ vheap name tv z1 hndr1 hV1 hz1
  obtain ⟨hexcV, hOkV2, hcharV, hkeyV⟩ := hupV
  have hn2 : rnames (hinsert famV
      (hremove famV (hinsert famT (hremove famT reg rheap name).1
        (hremove famT reg rheap name).2 t name).1 vheap name).1
      (hremove famV (hinsert famT (hremove famT reg rheap name).1
        (hremove famT reg rheap name).2 t name).1 vheap name).2 tv name).1
      = rnames reg := by rw [hexcV.1, hn1]
  have hOkT2 := HeapOk_transport famV famT famPair_VT _ _
    (hinsert famT (hremove famT reg rheap name).1
      (hremove famT reg rheap name).2 t name).2 hndr1 hexcV hOkT1
  obtain ⟨w, hw, hwt, hwl⟩ := EqExcept_fields famV famT famPair_VT _ _ name z1 hexcV hz1
  have hexcVrm := hremove_exc famV famT famPair_VT _ vheap name z1 hV1 hz1
  obtain ⟨w1, hw1, hw1t, hw1l⟩ :=
    EqExcept_fields famV famT famPair_VT _ _ name z1 hexcVrm hz1
  exact ⟨hn2, hOkT2, hOkV2, hcharT, hcharV, hkeyT, hkeyV,
    ⟨w, hw, by rw [hwt, hzt1], by rw [hwl, hzl1]⟩,
    ⟨w1, hw1, by rw [hw1t, hzt1], by rw [hw1l, hzl1]⟩⟩

/-- Combined effect of the recency-only heap update of
`SNAPSHOT`/`ROLLBACK` (the version heap is untouched). -/
lemma upsert_recent_ok (reg : Reg) (rheap vheap : Heap) (name : String) (t : Nat)
    (z : File) (hndr : (rnames reg).Nodup)
    (hT : HeapOk famT reg rheap) (hV : HeapOk famV reg vheap)
    (hz : findFile reg name = some z) :
    rnames (hinsert famT (hremove famT reg rheap name).1
      (hremove famT reg rheap name).2 t name).1 = rnames reg ∧
    HeapOk famT (hinsert famT (hremove famT reg rheap name).1
        (hremove famT reg rheap name).2 t name).1
      (hinsert famT (hremove famT reg rheap name).1
        (hremove famT reg rheap name).2 t name).2 ∧
    HeapOk famV (hinsert famT (hremove famT reg rheap name).1
        (hremove famT reg rheap name).2 t name).1 vheap ∧
    (∀ m, m ∈ hnames (hinsert famT (hremove famT reg rheap name).1
        (hremove famT reg rheap name).2 t name).2 ↔ (m ∈ hnames rheap ∨ m = name)) ∧
    keysFor (hinsert famT (hremove famT reg rheap name).1
      (hremove famT reg rheap name).2 t name).2 name = [t] ∧
    (∃ w, findFile (hinsert famT (hremove famT reg rheap name).1
        (hremove famT reg rheap name).2 t name).1 name = some w ∧
      w.total_versions = z.total_versions ∧ w.last_modification = z.last_modification) := by
  have hupT := hupsert_spec famT famV famPair_TV reg rheap name t z hndr hT hz
  obtain ⟨hexcT, hOkT1, hcharT, hkeyT⟩ := hupT
  have hV1 := HeapOk_transport famT famV famPair_TV reg _ vheap hndr hexcT hV
  obtain ⟨w, hw, hwt, hwl⟩ := EqExcept_fields famT famV famPair_TV reg _ name z hexcT hz
  exact ⟨hexcT.1, hOkT1, hV1, hcharT, hkeyT, ⟨w, hw, hwt, hwl⟩⟩

lemma File.insert_idx (c : Clock) (content : String) (z : File) :
    (File.insert c content z).1.recent_index = z.recent_index ∧
    (File.insert c content z).1.version_index = z.version_index := by
  by_cases h : z.activeNode.snapshot_ts = 0
  · rw [insert_open_eq z c content h]; exact ⟨rfl, rfl⟩
  · rw [insert_frozen_eq z c content h]; exact ⟨rfl, rfl⟩

lemma File.update_idx (c : Clock) (content : String) (z : File) :
    (File.update c content z).1.recent_index = z.recent_index ∧
    (File.update c content z).1.version_index = z.version_index := by
  by_cases h : z.activeNode.snapshot_ts = 0
  · rw [update_open_eq z c content h]; exact ⟨rfl, rfl⟩
  · rw [update_frozen_eq z c content h]; exact ⟨rfl, rfl⟩

lemma File.snapshot_idx (c : Clock) (m : String) (z : File) (zc : File × Clock)
    (h : File.snapshot c m z = .ok zc) :
    zc.1.recent_index = z.recent_index ∧ zc.1.version_index = z.version_index ∧
    zc.1.total_versions = z.total_versions := by
  by_cases hts : z.activeNode.snapshot_ts = 0
  · rw [snapshot_open_eq z c m hts] at h
    cases h
    exact ⟨rfl, rfl, rfl⟩
  · rw [snapshot_frozen_eq z c m hts] at h
    cases h

lemma File.rollback_idx (arg : Option Nat) (z z2 : File)
    (h : File.rollback arg z = .ok z2) :
    z2.recent_index = z.recent_index ∧ z2.version_index = z.version_index ∧
    z2.total_versions = z.total_versions ∧
    z2.last_modification = z.last_modification := by
  cases arg with
  | some id =>
    rw [File.rollback] at h
    by_cases hc : z.total_versions ≤ id
    · rw [if_pos hc] at h; cases h
    · rw [if_neg hc] at h
      cases h
      exact ⟨rfl, rfl, rfl, rfl⟩
  | none =>
    cases hp : z.activeNode.parent with
    | none => rw [File.rollback, hp] at h; cases h
    | some p =>
      rw [File.rollback, hp] at h
      cases h
      exact ⟨rfl, rfl, rfl, rfl⟩

lemma File.new_idx (c : Clock) :
    (File.new c).1.recent_index = -1 ∧ (File.new c).1.version_index = -1 ∧
    (File.new c).1.total_versions = 1 := by
  simp [File.new, File.snapshot, Clock.now, File.activeNode, nodeAt]

lemma rnames_append (reg : Reg) (n : String) (f : File) :
    rnames (reg ++ [(n, f)]) = rnames reg ++ [n] := by
  simp [rnames]

lemma HeapOk_append_new (F : Fam) (reg : Reg) (a : Heap) (name : String) (f : File)
    (hOk : HeapOk F reg a) (hnot : findFile reg name = none) (hproj : F.proj f = -1) :
    HeapOk F (reg ++ [(name, f)]) a := by
  obtain ⟨hnd, hmemb, hpos, habs⟩ := hOk
  refine ⟨hnd, ?_, ?_, ?_⟩
  · intro p hp
    rw [rnames_append]
    exact List.mem_append_left _ (hmemb p hp)
  · intro i hi
    obtain ⟨w, hw, hpw⟩ := Option.map_eq_some'.mp (hpos i hi)
    rw [findFile_append_left reg _ _ w hw]
    simp [hpw]
  · intro q hq hnotin
    rcases List.mem_append.mp hq with h1 | h1
    · exact habs q h1 hnotin
    · rw [List.mem_singleton] at h1
      rw [h1, hproj]

lemma setFile_ctx (reg : Reg) (rheap vheap : Heap) (name : String) (z z' : File)
    (hndr : (rnames reg).Nodup)
    (hT : HeapOk famT reg rheap) (hV : HeapOk famV reg vheap)
    (hz : findFile reg name = some z)
    (hpT : z'.recent_index = z.recent_index) (hpV : z'.version_index = z.version_index) :
    rnames (setFile reg name z') = rnames reg ∧
    (rnames (setFile reg name z')).Nodup ∧
    HeapOk famT (setFile reg name z') rheap ∧
    HeapOk famV (setFile reg name z') vheap ∧
    findFile (setFile reg name z') name = some z' := by
  refine ⟨rnames_setFile reg name z', by rw [rnames_setFile]; exact hndr,
    HeapOk_setFile famT reg rheap name z z' hz hpT hT,
    HeapOk_setFile famV reg vheap name z z' hz hpV hV, ?_⟩
  rw [findFile_setFile_self, hz]
  rfl

lemma mem_rnames (reg : Reg) (q : String × File) (hq : q ∈ reg) : q.1 ∈ rnames reg :=
  List.mem_map.mpr ⟨q, hq, rfl⟩

set_option maxHeartbeats 3000000 in
/-- C9 workhorse: one completed (or failed) command preserves the whole
position-bookkeeping invariant. -/
lemma sysInv_preserved (s : Sys) (cmd : Cmd) (hInv : SysInv s) :
    SysInv (runCmd s cmd).1 := by
  obtain ⟨hndr, hT, hV, hFT, hFV⟩ := hInv
  cases cmd with
  | readC name =>
    cases hf : findFile s.all_files name <;> simp [runCmd, stepCmd, hf] <;>
      exact ⟨hndr, hT, hV, hFT, hFV⟩
  | historyC name =>
    cases hf : findFile s.all_files name <;> simp [runCmd, stepCmd, hf] <;>
      exact ⟨hndr, hT, hV, hFT, hFV⟩
  | recentFiles karg =>
    rcases hstep : stepCmd s (Cmd.recentFiles karg) with e | so
    · simp [runCmd, hstep]
      exact ⟨hndr, hT, hV, hFT, hFV⟩
    · have h1 : so.1 = s := by
        simp only [stepCmd] at hstep
        split at hstep
        · cases hstep
        · split at hstep
          · cases hstep
          · cases hstep; rfl
      simp [runCmd, hstep, h1]
      exact ⟨hndr, hT, hV, hFT, hFV⟩
  | biggestTrees karg =>
    rcases hstep : stepCmd s (Cmd.biggestTrees karg) with e | so
    · simp [runCmd, hstep]
      exact ⟨hndr, hT, hV, hFT, hFV⟩
    · have h1 : so.1 = s := by
        simp only [stepCmd] at hstep
        split at hstep
        · cases hstep
        · split at hstep
          · cases hstep
          · cases hstep; rfl
      simp [runCmd, hstep, h1]
      exact ⟨hndr, hT, hV, hFT, hFV⟩
  | create name =>
    by_cases hempty : name = ""
    · simp [runCmd, stepCmd, hempty]
      exact ⟨hndr, hT, hV, hFT, hFV⟩
    · cases hf : findFile s.all_files name with
      | some z =>
        simp [runCmd, stepCmd, hempty, hf]
        exact ⟨hndr, hT, hV, hFT, hFV⟩
      | none =>
        simp only [runCmd, stepCmd, if_neg hempty, hf, Option.isSome_none,
          Bool.false_eq_true, if_false, remove_from_recent_heap,
          remove_from_version_heap, insert_time, insert_int]
        have hnotin : name ∉ rnames s.all_files := (findFile_eq_none _ _).mp hf
        have hnew := File.new_idx s.clock
        have hndr0 : (rnames (s.all_files ++ [(name, (File.new s.clock).1)])).Nodup := by
          rw [rnames_append, List.nodup_append]
          refine ⟨hndr, List.nodup_singleton _, ?_⟩
          intro x hx hmem
          rw [List.mem_singleton] at hmem
          exact hnotin (hmem ▸ hx)
        have hT0 := HeapOk_append_new famT s.all_files s.recent_files_heap name
          (File.new s.clock).1 hT hf hnew.1
        have hV0 := HeapOk_append_new famV s.all_files s.version_heap name
          (File.new s.clock).1 hV hf hnew.2.1
        have hz0 : findFile (s.all_files ++ [(name, (File.new s.clock).1)]) name
            = some (File.new s.clock).1 := by
          rw [findFile_append_right _ _ _ hf, findFile, if_pos rfl]
        obtain ⟨hn2, hOkT, hOkV, hcharT, hcharV, hkT, hkV, hw, hw1⟩ :=
          upsert_both_ok (s.all_files ++ [(name, (File.new s.clock).1)])
            s.recent_files_heap s.version_heap name _ _ (File.new s.clock).1
            hndr0 hT0 hV0 hz0
        refine ⟨?_, hOkT, hOkV, ?_, ?_⟩
        · rw [hn2]; exact hndr0
        · intro q hq
          have hqn : q.1 ∈ rnames (s.all_files ++ [(name, (File.new s.clock).1)]) := by
            rw [← hn2]; exact mem_rnames _ q hq
          rw [rnames_append] at hqn
          rcases List.mem_append.mp hqn with h1 | h1
          · exact (hcharT q.1).mpr (Or.inl (FullOk_names _ _ hFT q.1 h1))
          · rw [List.mem_singleton] at h1
            exact (hcharT q.1).mpr (Or.inr h1)
        · intro q hq
          have hqn : q.1 ∈ rnames (s.all_files ++ [(name, (File.new s.clock).1)]) := by
            rw [← hn2]; exact mem_rnames _ q hq
          rw [rnames_append] at hqn
          rcases List.mem_append.mp hqn with h1 | h1
          · exact (hcharV q.1).mpr (Or.inl (FullOk_names _ _ hFV q.1 h1))
          · rw [List.mem_singleton] at h1
            exact (hcharV q.1).mpr (Or.inr h1)
  | insertC name content =>
    cases hf : findFile s.all_files name with
    | none =>
      simp [runCmd, stepCmd, hf]
      exact ⟨hndr, hT, hV, hFT, hFV⟩
    | some z =>
      simp only [runCmd, stepCmd, hf, remove_from_recent_heap,
        remove_from_version_heap, insert_time, insert_int]
      obtain ⟨hn0, hndr0, hT0, hV0, hz0⟩ := setFile_ctx s.all_files s.recent_files_heap
        s.version_heap name z (File.insert s.clock content z).1 hndr hT hV hf
        (File.insert_idx s.clock content z).1 (File.insert_idx s.clock content z).2
      obtain ⟨hn2, hOkT, hOkV, hcharT, hcharV, hkT, hkV, hw, hw1⟩ :=
        upsert_both_ok (setFile s.all_files name (File.insert s.clock content z).1)
          s.recent_files_heap s.version_heap name _ _ (File.insert s.clock content z).1
          hndr0 hT0 hV0 hz0
      refine ⟨?_, hOkT, hOkV, ?_, ?_⟩
      · rw [hn2, hn0]; exact hndr
      · intro q hq
        have hqn : q.1 ∈ rnames s.all_files := by
          rw [← hn0, ← hn2]; exact mem_rnames _ q hq
        exact (hcharT q.1).mpr (Or.inl (FullOk_names _ _ hFT q.1 hqn))
      · intro q hq
        have hqn : q.1 ∈ rnames s.all_files := by
          rw [← hn0, ← hn2]; exact mem_rnames _ q hq
        exact (hcharV q.1).mpr (Or.inl (FullOk_names _ _ hFV q.1 hqn))
  | updateC name content =>
    cases hf : findFile s.all_files name with
    | none =>
      simp [runCmd, stepCmd, hf]
      exact ⟨hndr, hT, hV, hFT, hFV⟩
    | some z =>
      simp only [runCmd, stepCmd, hf, remove_from_recent_heap,
        remove_from_version_heap, insert_time, insert_int]
      obtain ⟨hn0, hndr0, hT0, hV0, hz0⟩ := setFile_ctx s.all_files s.recent_files_heap
        s.version_heap name z (File.update s.clock content z).1 hndr hT hV hf
        (File.update_idx s.clock content z).1 (File.update_idx s.clock content z).2
      obtain ⟨hn2, hOkT, hOkV, hcharT, hcharV, hkT, hkV, hw, hw1⟩ :=
        upsert_both_ok (setFile s.all_files name (File.update s.clock content z).1)
          s.recent_files_heap s.version_heap name _ _ (File.update s.clock content z).1
          hndr0 hT0 hV0 hz0
      refine ⟨?_, hOkT, hOkV, ?_, ?_⟩
      · rw [hn2, hn0]; exact hndr
      · intro q hq
        have hqn : q.1 ∈ rnames s.all_files := by
          rw [← hn0, ← hn2]; exact mem_rnames _ q hq
        exact (hcharT q.1).mpr (Or.inl (FullOk_names _ _ hFT q.1 hqn))
      · intro q hq
        have hqn : q.1 ∈ rnames s.all_files := by
          rw [← hn0, ← hn2]; exact mem_rnames _ q hq
        exact (hcharV q.1).mpr (Or.inl (FullOk_names _ _ hFV q.1 hqn))
  | snapshotC name msg =>
    cases hf : findFile s.all_files name with
    | none =>
      simp [runCmd, stepCmd, hf]
      exact ⟨hndr, hT, hV, hFT, hFV⟩
    | some z =>
      cases hsnap : File.snapshot s.clock msg z with
      | error e =>
        simp [runCmd, stepCmd, hf, hsnap]
        exact ⟨hndr, hT, hV, hFT, hFV⟩
      | ok zc =>
        simp only [runCmd, stepCmd, hf, hsnap, remove_from_recent_heap, insert_time]
        have hidx := File.snapshot_idx s.clock msg z zc hsnap
        obtain ⟨hn0, hndr0, hT0, hV0, hz0⟩ := setFile_ctx s.all_files s.recent_files_heap
          s.version_heap name z zc.1 hndr hT hV hf hidx.1 hidx.2.1
        obtain ⟨hn1, hOkT, hOkV, hcharT, hkT, hw⟩ :=
          upsert_recent_ok (setFile s.all_files name zc.1) s.recent_files_heap
            s.version_heap name _ zc.1 hndr0 hT0 hV0 hz0
        refine ⟨?_, hOkT, hOkV, ?_, ?_⟩
        · rw [hn1, hn0]; exact hndr
        · intro q hq
          have hqn : q.1 ∈ rnames s.all_files := by
            rw [← hn0, ← hn1]; exact mem_rnames _ q hq
          exact (hcharT q.1).mpr (Or.inl (FullOk_names _ _ hFT q.1 hqn))
        · intro q hq
          have hqn : q.1 ∈ rnames s.all_files := by
            rw [← hn0, ← hn1]; exact mem_rnames _ q hq
          exact FullOk_names _ _ hFV q.1 hqn
  | rollbackC name arg =>
    cases hf : findFile s.all_files name with
    | none =>
      simp [runCmd, stepCmd, hf]
      exact ⟨hndr, hT, hV, hFT, hFV⟩
    | some z =>
      cases hroll : File.rollback arg z with
      | error e =>
        simp [runCmd, stepCmd, hf, hroll]
        exact ⟨hndr, hT, hV, hFT, hFV⟩
      | ok z2 =>
        simp only [runCmd, stepCmd, hf, hroll, remove_from_recent_heap, insert_time]
        have hidx := File.rollback_idx arg z z2 hroll
        obtain ⟨hn0, hndr0, hT0, hV0, hz0⟩ := setFile_ctx s.all_files s.recent_files_heap
          s.version_heap name z z2 hndr hT hV hf hidx.1 hidx.2.1
        obtain ⟨hn1, hOkT, hOkV, hcharT, hkT, hw⟩ :=
          upsert_recent_ok (setFile s.all_files name z2) s.recent_files_heap
            s.version_heap name _ z2 hndr0 hT0 hV0 hz0
        refine ⟨?_, hOkT, hOkV, ?_, ?_⟩
        · rw [hn1, hn0]; exact hndr
        · intro q hq
          have hqn : q.1 ∈ rnames s.all_files := by
            rw [← hn0, ← hn1]; exact mem_rnames _ q hq
          exact (hcharT q.1).mpr (Or.inl (FullOk_names _ _ hFT q.1 hqn))
        · intro q hq
          have hqn : q.1 ∈ rnames s.all_files := by
            rw [← hn0, ← hn1]; exact mem_rnames _ q hq
          exact FullOk_names _ _ hFV q.1 hqn

/-- C9: the external position bookkeeping is consistent after every
completed command: it holds in the initial state, and every command
(successful or failed) preserves `SysInv` — for every registered file,
`recent_index`/`version_index` equal the index of its entry in the
respective heap, each heap has exactly one entry per registered file
(names are distinct and both membership inclusions hold), and every heap
entry names a registered file. -/
theorem index_bookkeeping_inv :
    SysInv sys0 ∧ ∀ (s : Sys) (cmd : Cmd), SysInv s → SysInv (runCmd s cmd).1 :=
  ⟨by decide, fun s cmd h => sysInv_preserved s cmd h⟩

/-- C9 witness: the invariant propagated to a concrete reachable state. -/
theorem index_bookkeeping_inv_witness : SysInv (runCmd sysA (Cmd.insertC "a" "hi")).1 :=
  index_bookkeeping_inv.2 sysA (Cmd.insertC "a" "hi") (by decide)

/-! ### C2 (amended): rank keys after a mutating command -/

/-- The file a mutating command targets (`none` for `CREATE` and the
pure queries, which never update an existing file's keys). -/
def mutTarget : Cmd → Option String
  | .insertC n _ => some n
  | .updateC n _ => some n
  | .snapshotC n _ => some n
  | .rollbackC n _ => some n
  | _ => none

/-- Commands whose handler never touches the version-count heap. -/
def keepsVersionHeap : Cmd → Bool
  | .snapshotC _ _ => true
  | .rollbackC _ _ => true
  | _ => false

/-- Auxiliary invariant: every registered file's key in the
version-count heap is exactly its `total_ver()`. -/
def KeyInvV (s : Sys) : Prop :=
  ∀ q ∈ s.all_files, keysFor s.version_heap q.1 = [q.2.total_versions]

/-- No registered `lastModified()` stamp exceeds the clock's next
reading (true of the wall clock: the stamp was sampled earlier). -/
def ClkOk (s : Sys) : Prop :=
  ∀ q ∈ s.all_files, q.2.last_modification ≤ s.clock.f s.clock.k

instance (s : Sys) : Decidable (KeyInvV s) :=
  inferInstanceAs (Decidable (∀ q ∈ s.all_files,
    keysFor s.version_heap q.1 = [q.2.total_versions]))

instance (s : Sys) : Decidable (ClkOk s) :=
  inferInstanceAs (Decidable (∀ q ∈ s.all_files,
    q.2.last_modification ≤ s.clock.f s.clock.k))

lemma total_ver_of_eq (reg : Reg) (n : String) (w : File)
    (h : findFile reg n = some w) : total_ver_of reg n = w.total_versions := by
  simp [total_ver_of, h, File.total_ver]

lemma File.insert_clk (c : Clock) (x : String) (z : File) :
    (File.insert c x z).1.last_modification = c.f c.k ∧
    (File.insert c x z).2.f = c.f ∧ c.k ≤ (File.insert c x z).2.k := by
  by_cases h : z.activeNode.snapshot_ts = 0
  · rw [insert_open_eq z c x h]
    exact ⟨rfl, rfl, Nat.le_succ c.k⟩
  · rw [insert_frozen_eq z c x h]
    exact ⟨rfl, rfl, Nat.le_add_right c.k 2⟩

lemma File.update_clk (c : Clock) (x : String) (z : File) :
    (File.update c x z).1.last_modification = c.f c.k ∧
    (File.update c x z).2.f = c.f ∧ c.k ≤ (File.update c x z).2.k := by
  by_cases h : z.activeNode.snapshot_ts = 0
  · rw [update_open_eq z c x h]
    exact ⟨rfl, rfl, Nat.le_succ c.k⟩
  · rw [update_frozen_eq z c x h]
    exact ⟨rfl, rfl, Nat.le_add_right c.k 2⟩

lemma File.snapshot_clk (c : Clock) (m : String) (z : File) (zc : File × Clock)
    (h : File.snapshot c m z = .ok zc) :
    zc.1.last_modification = c.f c.k ∧ zc.2.f = c.f ∧ c.k ≤ zc.2.k := by
  by_cases hts : z.activeNode.snapshot_ts = 0
  · rw [snapshot_open_eq z c m hts] at h
    cases h
    exact ⟨rfl, rfl, Nat.le_add_right c.k 2⟩
  · rw [snapshot_frozen_eq z c m hts] at h
    cases h

set_option maxHeartbeats 1600000 in
/-- C2 (amended): after every completed mutating command, the target
file's key in the version-count heap equals its `total_ver()`; its key
in the recency heap is the fresh `time(0)` sample the handler takes
after the tree mutation, which under a monotone clock is at least
`lastModified()` (it need not equal it: the handlers re-sample the
clock instead of reading `last_ts()`, and `File::rollback` never
updates `last_modification`); `SNAPSHOT` and `ROLLBACK` leave the
version-count heap unchanged. -/
theorem rank_key_amended_spec (s : Sys) (cmd : Cmd) (name : String)
    (s2 : Sys) (out : CmdOut) (hInv : SysInv s) (hKey : KeyInvV s)
    (hMono : ∀ i j, i ≤ j → s.clock.f i ≤ s.clock.f j) (hClk : ClkOk s)
    (hTgt : mutTarget cmd = some name) (hStep : stepCmd s cmd = .ok (s2, out)) :
    (∃ w, findFile s2.all_files name = some w ∧
      keysFor s2.version_heap name = [w.total_versions] ∧
      ∃ t, keysFor s2.recent_files_heap name = [t] ∧ w.last_modification ≤ t) ∧
    (keepsVersionHeap cmd = true → s2.version_heap = s.version_heap) := by
  obtain ⟨hndr, hT, hV, hFT, hFV⟩ := hInv
  cases cmd with
  | create n => exact Option.noConfusion hTgt
  | readC n => exact Option.noConfusion hTgt
  | historyC n => exact Option.noConfusion hTgt
  | recentFiles karg => exact Option.noConfusion hTgt
  | biggestTrees karg => exact Option.noConfusion hTgt
  | insertC n content =>
    injection hTgt with hn
    subst hn
    cases hf : findFile s.all_files n with
    | none => exact absurd hStep (by simp [stepCmd, hf])
    | some z =>
      simp only [stepCmd, hf, remove_from_recent_heap, remove_from_version_heap,
        insert_time, insert_int, Except.ok.injEq, Prod.mk.injEq] at hStep
      obtain ⟨hs2, hout⟩ := hStep
      subst hs2
      have hclk := File.insert_clk s.clock content z
      obtain ⟨hn0, hndr0, hT0, hV0, hz0⟩ := setFile_ctx s.all_files s.recent_files_heap
        s.version_heap n z (File.insert s.clock content z).1 hndr hT hV hf
        (File.insert_idx s.clock content z).1 (File.insert_idx s.clock content z).2
      obtain ⟨hn2, hOkT, hOkV, hcharT, hcharV, hkT, hkV, hw, hw1⟩ :=
        upsert_both_ok (setFile s.all_files n (File.insert s.clock content z).1)
          s.recent_files_heap s.version_heap n _ _ (File.insert s.clock content z).1
          hndr0 hT0 hV0 hz0
      obtain ⟨w, hwf, hwt, hwl⟩ := hw
      obtain ⟨w1, hw1f, hw1t, hw1l⟩ := hw1
      refine ⟨⟨w, hwf, ?_, _, hkT, ?_⟩, ?_⟩
      · rw [hkV, total_ver_of_eq _ _ _ hw1f, hw1t, hwt]
      · calc w.last_modification = s.clock.f s.clock.k := by rw [hwl, hclk.1]
          _ ≤ s.clock.f (File.insert s.clock content z).2.k := hMono _ _ hclk.2.2
          _ = ((File.insert s.clock content z).2.now).1 := by
              simp [Clock.now, hclk.2.1]
      · intro hkv
        simp [keepsVersionHeap] at hkv
  | updateC n content =>
    injection hTgt with hn
    subst hn
    cases hf : findFile s.all_files n with
    | none => exact absurd hStep (by simp [stepCmd, hf])
    | some z =>
      simp only [stepCmd, hf, remove_from_recent_heap, remove_from_version_heap,
        insert_time, insert_int, Except.ok.injEq, Prod.mk.injEq] at hStep
      obtain ⟨hs2, hout⟩ := hStep
      subst hs2
      have hclk := File.update_clk s.clock content z
      obtain ⟨hn0, hndr0, hT0, hV0, hz0⟩ := setFile_ctx s.all_files s.recent_files_heap
        s.version_heap n z (File.update s.clock content z).1 hndr hT hV hf
        (File.update_idx s.clock content z).1 (File.update_idx s.clock content z).2
      obtain ⟨hn2, hOkT, hOkV, hcharT, hcharV, hkT, hkV, hw, hw1⟩ :=
        upsert_both_ok (setFile s.all_files n (File.update s.clock content z).1)
          s.recent_files_heap s.version_heap n _ _ (File.update s.clock content z).1
          hndr0 hT0 hV0 hz0
      obtain ⟨w, hwf, hwt, hwl⟩ := hw
      obtain ⟨w1, hw1f, hw1t, hw1l⟩ := hw1
      refine ⟨⟨w, hwf, ?_, _, hkT, ?_⟩, ?_⟩
      · rw [hkV, total_ver_of_eq _ _ _ hw1f, hw1t, hwt]
      · calc w.last_modification = s.clock.f s.clock.k := by rw [hwl, hclk.1]
          _ ≤ s.clock.f (File.update s.clock content z).2.k := hMono _ _ hclk.2.2
          _ = ((File.update s.clock content z).2.now).1 := by
              simp [Clock.now, hclk.2.1]
      · intro hkv
        simp [keepsVersionHeap] at hkv
  | snapshotC n msg =>
    injection hTgt with hn
    subst hn
    cases hf : findFile s.all_files n with
    | none => exact absurd hStep (by simp [stepCmd, hf])
    | some z =>
      cases hsnap : File.snapshot s.clock msg z with
      | error e => exact absurd hStep (by simp [stepCmd, hf, hsnap])
      | ok zc =>
        simp only [stepCmd, hf, hsnap, remove_from_recent_heap, insert_time,
          Except.ok.injEq, Prod.mk.injEq] at hStep
        obtain ⟨hs2, hout⟩ := hStep
        subst hs2
        have hidx := File.snapshot_idx s.clock msg z zc hsnap
        have hclk := File.snapshot_clk s.clock msg z zc hsnap
        have hmem : (n, z) ∈ s.all_files := findFile_mem s.all_files n z hf
        have hkz : keysFor s.version_heap n = [z.total_versions] := hKey (n, z) hmem
        obtain ⟨hn0, hndr0, hT0, hV0, hz0⟩ := setFile_ctx s.all_files s.recent_files_heap
          s.version_heap n z zc.1 hndr hT hV hf hidx.1 hidx.2.1
        obtain ⟨hn1, hOkT, hOkV, hcharT, hkT, hw⟩ :=
          upsert_recent_ok (setFile s.all_files n zc.1) s.recent_files_heap
            s.version_heap n _ zc.1 hndr0 hT0 hV0 hz0
        obtain ⟨w, hwf, hwt, hwl⟩ := hw
        refine ⟨⟨w, hwf, ?_, _, hkT, ?_⟩, fun _ => rfl⟩
        · rw [hkz, hwt, hidx.2.2]
        · calc w.last_modification = s.clock.f s.clock.k := by rw [hwl, hclk.1]
            _ ≤ s.clock.f zc.2.k := hMono _ _ hclk.2.2
            _ = (zc.2.now).1 := by simp [Clock.now, hclk.2.1]
  | rollbackC n arg =>
    injection hTgt with hn
    subst hn
    cases hf : findFile s.all_files n with
    | none => exact absurd hStep (by simp [stepCmd, hf])
    | some z =>
      cases hroll : File.rollback arg z with
      | error e => exact absurd hStep (by simp [stepCmd, hf, hroll])
      | ok z2 =>
        simp only [stepCmd, hf, hroll, remove_from_recent_heap, insert_time,
          Except.ok.injEq, Prod.mk.injEq] at hStep
        obtain ⟨hs2, hout⟩ := hStep
        subst hs2
        have hidx := File.rollback_idx arg z z2 hroll
        have hmem : (n, z) ∈ s.all_files := findFile_mem s.all_files n z hf
        have hkz : keysFor s.version_heap n = [z.total_versions] := hKey (n, z) hmem
        have hle : z.last_modification ≤ s.clock.f s.clock.k := hClk (n, z) hmem
        obtain ⟨hn0, hndr0, hT0, hV0, hz0⟩ := setFile_ctx s.all_files s.recent_files_heap
          s.version_heap n z z2 hndr hT hV hf hidx.1 hidx.2.1
        obtain ⟨hn1, hOkT, hOkV, hcharT, hkT, hw⟩ :=
          upsert_recent_ok (setFile s.all_files n z2) s.recent_files_heap
            s.version_heap n _ z2 hndr0 hT0 hV0 hz0
        obtain ⟨w, hwf, hwt, hwl⟩ := hw
        refine ⟨⟨w, hwf, ?_, _, hkT, ?_⟩, fun _ => rfl⟩
        · rw [hkz, hwt, hidx.2.2.1]
        · calc w.last_modification = z.last_modification := by rw [hwl, hidx.2.2.2]
            _ ≤ s.clock.f s.clock.k := hle
            _ = (s.clock.now).1 := rfl

/-- C2 witness: the amended statement instantiated on a concrete run
(`CREATE a` then `INSERT a hi`). -/
theorem rank_key_amended_spec_witness :
    (∃ w, findFile (runCmd sysA (Cmd.insertC "a" "hi")).1.all_files "a" = some w ∧
      keysFor (runCmd sysA (Cmd.insertC "a" "hi")).1.version_heap "a" =
        [w.total_versions] ∧
      ∃ t, keysFor (runCmd sysA (Cmd.insertC "a" "hi")).1.recent_files_heap "a" = [t] ∧
        w.last_modification ≤ t) ∧
    (keepsVersionHeap (Cmd.insertC "a" "hi") = true →
      (runCmd sysA (Cmd.insertC "a" "hi")).1.version_heap = sysA.version_heap) :=
  rank_key_amended_spec sysA (Cmd.insertC "a" "hi") "a"
    (runCmd sysA (Cmd.insertC "a" "hi")).1 (CmdOut.insertedOut "hi")
    (by decide) (by decide) (fun i j h => Nat.succ_le_succ h) (by decide) rfl rfl
